import Mathlib

/-!
  # Verification of the openparliament Hansard parser core

Shallow embedding, in Lean 4, of the transcript-parsing core of the
openparliamentBC repository:

* `parliament/imports/alpheus.py` — the streaming XML-to-statement parser
  (string utilities, speaker attribution, statement building, tag dispatch);
* `parliament/imports/parl_document.py` — the bilingual merge and the
  sequence-realignment pass;
* `parliament/hansards/models.py` — persistence-time statement logic
  (`Statement.save`'s procedural re-check, `Statement.set_slugs`).

Modelling conventions:

* Python `str` is modelled by `String`, lists by `List`, dicts by ordered
  association lists (`List (key × value)`, insertion order preserved, later
  assignment overwrites).
* Python floats are modelled by exact rationals `ℚ`.
* Python exceptions are modelled by `Except`/`Option`; the distinct exception
  classes that can escape the parsing code are the constructors of `PyErr`.
* Regular-expression operations from the source are compiled by hand into
  character-list functions; each definition documents the regex it implements.
  `\s` is modelled by the ASCII whitespace class (the source texts are
  processed byte-oriented government XML; non-ASCII whitespace does not occur
  in the relevant fields).
* Bounded recursion that Python expresses by scanning is written with an
  explicit fuel argument equal to an a-priori bound on the recursion depth,
  so that all definitions compute by kernel reduction; the fuel is always
  sufficient (each recursive call strictly decreases the measure used).
-/

namespace OpenParl

/-- ASCII whitespace, the characters matched by Python's `\s` (and stripped by
`str.strip()`) on ASCII data: space, tab, newline, carriage return, vertical
tab, form feed. -/
def pyWs (c : Char) : Bool :=
  c = ' ' || c = '\t' || c = '\n' || c = '\r' || c = '\x0b' || c = '\x0c'

/-- Build a `String` from a reversed character accumulator. -/
def revStr (acc : List Char) : String :=
  ⟨acc.reverse⟩

/-- Python `str.strip()`: remove leading and trailing whitespace. -/
def pyStrip (s : String) : String :=
  ⟨((s.data.dropWhile pyWs).reverse.dropWhile pyWs).reverse⟩

/-- Worker for `pyReSplitWs`: `cur` is the reversed current token, `out` the
tokens already produced, `inWs` whether we are inside a whitespace run (whose
preceding token has already been emitted). -/
def wsGo : List Char → List Char → List String → Bool → List String
  | [], cur, out, inWs => if inWs then out ++ [""] else out ++ [revStr cur]
  | c :: rest, cur, out, inWs =>
    if pyWs c then
      if inWs then wsGo rest [] out true
      else wsGo rest [] (out ++ [revStr cur]) true
    else
      wsGo rest (c :: cur) out false

/-- Python `re.split(r'\s+', s)`: split on maximal whitespace runs, keeping
the empty tokens that arise at the ends (`''` for leading/trailing whitespace,
and `['']` for the empty string).  Used by `get_comparison_sequence` in
`parl_document.py`. -/
def pyReSplitWs (s : String) : List String :=
  wsGo s.data [] [] false

/-- `alpheus._tame_whitespace`: `re.sub(r'\s+', ' ', s).strip()` — collapse
every whitespace run to one space and strip the ends.  Equivalently: the
maximal non-whitespace chunks joined by single spaces. -/
def tameWhitespace (s : String) : String :=
  " ".intercalate ((pyReSplitWs s).filter (· ≠ ""))

/-- ASCII model of Python `str.lower` for a single character. -/
def pyLowerChar (c : Char) : Char :=
  if 'A' ≤ c ∧ c ≤ 'Z' then Char.ofNat (c.toNat + 32) else c

/-- `alpheus._letters_only`: `re.sub('[^a-zA-Z]', '', s.lower())` — lower-case,
then keep only ASCII letters. -/
def lettersOnly (s : String) : String :=
  ⟨(s.data.map pyLowerChar).filter
    (fun c => ('a' ≤ c ∧ c ≤ 'z') ∨ ('A' ≤ c ∧ c ≤ 'Z'))⟩

/-- Worker for `pyReplace`; `fuel` bounds the number of characters consumed
and is always instantiated with the length of the subject string, which
suffices because every step consumes at least one character (the needle is
never empty at any call site). -/
def replChars (ndl rpl : List Char) : Nat → List Char → List Char
  | _, [] => []
  | 0, l => l
  | fuel + 1, c :: rest =>
    if ndl.isPrefixOf (c :: rest) then
      rpl ++ replChars ndl rpl fuel (List.drop (ndl.length - 1) rest)
    else
      c :: replChars ndl rpl fuel rest

/-- Python `s.replace(ndl, rpl)`: replace all non-overlapping occurrences,
scanning left to right (non-empty needles only). -/
def pyReplace (s ndl rpl : String) : String :=
  ⟨replChars ndl.data rpl.data s.data.length s.data⟩

/-- Worker for `pyInStr`: does `ndl` occur as a contiguous block of `hay`? -/
def inStrAux (ndl : List Char) : List Char → Bool
  | [] => ndl.isEmpty
  | c :: rest => ndl.isPrefixOf (c :: rest) || inStrAux ndl rest

/-- Python `needle in haystack` for strings (substring containment; the empty
needle is contained in everything). -/
def pyInStr (needle hay : String) : Bool :=
  inStrAux needle.data hay.data

/-- Worker for `pySplitChar`. -/
def splitCharAux (sep : Char) : List Char → List Char → List String
  | acc, [] => [revStr acc]
  | acc, c :: rest =>
    if c = sep then revStr acc :: splitCharAux sep [] rest
    else splitCharAux sep (c :: acc) rest

/-- Python `s.split(sep)` for a one-character separator (keeps empty parts;
`''.split(sep) == ['']`).  Used for the `'\n'` splits in `models.py`. -/
def pySplitChar (sep : Char) (s : String) : List String :=
  splitCharAux sep [] s.data

/-- Python `str.startswith`. -/
def pyStartsWith (s pre : String) : Bool :=
  pre.data.isPrefixOf s.data

section SequenceMatcher

/-!
  ## `difflib.SequenceMatcher` on token lists

`parl_document.get_comparison_sequence` tokenizes a statement's plain text by
`re.split(r'\s+', text)`; `calculate_similarity` then calls
`SequenceMatcher(None, old_tokens, new_tokens).ratio()`.  We embed the
Ratcliff–Obershelp computation that `ratio()` performs: repeatedly find the
longest matching contiguous block (taking, among maximal blocks, the one with
the smallest indices — difflib's scan order), recurse on the parts to the left
and to the right of the block, and sum the matched lengths; the ratio is
`2*M/T` where `T` is the total length (and `1.0` when both sequences are
empty).  The `autojunk` heuristic, which difflib only engages for sequences
with more than 200 elements, is not modelled. -/

/-- Length of the longest common prefix of two token lists. -/
def commonPrefixLen : List String → List String → Nat
  | a :: as, b :: bs => if a = b then commonPrefixLen as bs + 1 else 0
  | _, _ => 0

/-- Length of the common block of `a` and `b` starting at positions `i`, `j`. -/
def matchLenFrom (a b : List String) (i j : Nat) : Nat :=
  commonPrefixLen (a.drop i) (b.drop j)

/-- `SequenceMatcher.find_longest_match` over the whole sequences: the triple
`(i, j, size)` of the longest matching block, choosing on ties the block with
the least `i`, then least `j` (difflib's update order: a candidate replaces the
best only when strictly longer). -/
def bestMatch (a b : List String) : Nat × Nat × Nat :=
  (List.range a.length).foldl
    (fun st i =>
      (List.range b.length).foldl
        (fun st j =>
          let k := matchLenFrom a b i j
          if st.2.2 < k then (i, j, k) else st)
        st)
    (0, 0, 0)

/-- Total size of all matching blocks (the `M` of `ratio = 2M/T`), computed by
the Ratcliff–Obershelp recursion of `get_matching_blocks`.  `fuel` bounds the
recursion depth; `a.length + b.length` suffices since each recursive call
strictly decreases that sum (the matched block is non-empty). -/
def matchedTotal : Nat → List String → List String → Nat
  | 0, _, _ => 0
  | fuel + 1, a, b =>
    let m := bestMatch a b
    if m.2.2 = 0 then 0
    else
      matchedTotal fuel (a.take m.1) (b.take m.2.1) + m.2.2 +
        matchedTotal fuel (a.drop (m.1 + m.2.2)) (b.drop (m.2.1 + m.2.2))

/-- `SequenceMatcher.ratio()` on token lists: `2*M/T`, and `1` when both
sequences are empty. -/
def smRatio (a b : List String) : ℚ :=
  let t := a.length + b.length
  if t = 0 then 1
  else (2 * (matchedTotal (a.length + b.length) a b) : ℚ) / (t : ℚ)

end SequenceMatcher

section Realign

/-!
  ## `parl_document._align_sequences` and its similarity score

A persisted `Statement`, as consumed by the realignment pass, is modelled by
the fields `_align_sequences` actually reads: `name_info['display_name']` (the
grouping key, resolved upstream), `time`, `text_plain()` (the plain-text
rendering of the content), `sequence` and `slug`.  Python's `set`/`in` on
statements is modelled by list membership with decidable equality. -/

structure RealignSt where
  displayName : String
  time : Nat
  textPlain : String
  sequence : Nat
  slug : String
deriving DecidableEq

/-- `get_comparison_sequence`: `re.split(r'\s+', text)`. -/
def getComparisonSequence (text : String) : List String :=
  pyReSplitWs text

/-- `calculate_similarity(old, new)` from `_align_sequences`, with the
enclosing-scope `chosen` set passed explicitly: a 0.8 timing bonus for an
identical timestamp, a 0.01 penalty for a new statement already chosen once,
substring containment counted as perfect similarity, otherwise the
`SequenceMatcher` ratio of the whitespace-tokenized texts; the total is
divided by 1.8. -/
def calculateSimilarity (chosen : List RealignSt) (old new : RealignSt) : ℚ :=
  let score : ℚ := if old.time = new.time then 8 / 10 else 0
  let score : ℚ := if new ∈ chosen then score - 1 / 100 else score
  let oldtext := old.textPlain
  let newtext := new.textPlain
  let similarity : ℚ :=
    if pyInStr newtext oldtext then 1
    else smRatio (getComparisonSequence oldtext) (getComparisonSequence newtext)
  (score + similarity) / (18 / 10)

end Realign

section Slugs

/-!
  ## `Statement.set_slugs` (`hansards/models.py`)

```python
counter = defaultdict(int)
for statement in statements:
    slug = slugify(statement.name_info['display_name'])[:50]
    if not slug:
        slug = 'procedural'
    counter[slug] += 1
    statement.slug = slug + '-%s' % counter[slug]
```

`django.template.defaultfilters.slugify` is web-framework code, external to
this core; it is modelled as an arbitrary function parameter `f`.  The
`defaultdict(int)` counter is an association list where the most recent
assignment is found first and absent keys read as `0`. -/

/-- `defaultdict(int)` lookup: latest assignment wins, absent keys are `0`. -/
def alookupN : List (String × Nat) → String → Nat
  | [], _ => 0
  | (k, v) :: rest, key => if key = k then v else alookupN rest key

/-- The base slug for one display name: the slugified name truncated to 50
characters, with `'procedural'` substituted when that is empty. -/
def slugBase (f : String → String) (name : String) : String :=
  let s : String := ⟨(f name).data.take 50⟩
  if s = "" then "procedural" else s

/-- The loop of `set_slugs`, threading the per-base counter. -/
def setSlugsAux (f : String → String) : List (String × Nat) → List String → List String
  | _, [] => []
  | counter, name :: rest =>
    let b := slugBase f name
    let k := alookupN counter b + 1
    (b ++ "-" ++ Nat.repr k) :: setSlugsAux f ((b, k) :: counter) rest

/-- `Statement.set_slugs`, as the list of slugs assigned to the statements
whose display names are `names` (in order). -/
def setSlugs (f : String → String) (names : List String) : List String :=
  setSlugsAux f [] names

/-- Decimal value of a digit-character list; used to invert `Nat.repr`. -/
def decValue : List Char → Nat
  | [] => 0
  | c :: rest => (c.toNat - 48) * 10 ^ rest.length + decValue rest

end Slugs

section ProceduralCheck

/-!
  ## `Statement.save` procedural re-check (`hansards/models.py`)

```python
self.content_en = self.content_en.replace('\n', '').replace('</p>', '</p>\n').strip()
self.content_fr = self.content_fr.replace('\n', '').replace('</p>', '</p>\n').strip()
if self.wordcount_en is None:
    self._generate_wordcounts()
if ((not self.procedural) and self.wordcount <= 300
    and (
        (parsetools.r_notamember.search(self.who) and re.search(r'(Speaker|Chair|président)', self.who))
        or (not self.who)
        or not any(p for p in self.content_en.split('\n') if 'class="procedural"' not in p)
)):
    self.procedural = True
```

`django.utils.html.strip_tags` (used by `html_to_text` inside
`_generate_wordcounts`) is web-framework code, external to this core; it is
modelled as a function parameter.  The `urlcache`/`generate_url` step and the
ORM write are persistence concerns outside the model.  Note that
`any(p for p in ... if 'class="procedural"' not in p)` tests the *truthiness*
of the yielded paragraph strings: an empty paragraph never witnesses the
`any`. -/

/-- Python `s.split()` with no separator: whitespace-split, dropping empties. -/
def pySplitWords (s : String) : List String :=
  (pyReSplitWs s).filter (· ≠ "")

/-- Worker for `pyFind`. -/
def findSubAux (ndl : List Char) : List Char → Nat → Option Nat
  | [], i => if ndl.isEmpty then some i else none
  | c :: rest, i =>
    if ndl.isPrefixOf (c :: rest) then some i else findSubAux ndl rest (i + 1)

/-- Python `hay.find(ndl)`, with `None` for Python's `-1`. -/
def pyFind (hay ndl : String) : Option Nat :=
  findSubAux ndl.data hay.data 0

/-- `parsetools.r_notamember`:
`re.compile(r'^(The|A|Some|Acting|Santa|One|Assistant|An\.?|Le|La|Une|Des|Voices)')`
used via `.search`, i.e. an anchored prefix test (the optional dot of `An\.?`
cannot affect whether a match exists). -/
def rNotAMember (s : String) : Bool :=
  pyStartsWith s "The" || pyStartsWith s "A" || pyStartsWith s "Some" ||
  pyStartsWith s "Acting" || pyStartsWith s "Santa" || pyStartsWith s "One" ||
  pyStartsWith s "Assistant" || pyStartsWith s "An" || pyStartsWith s "Le" ||
  pyStartsWith s "La" || pyStartsWith s "Une" || pyStartsWith s "Des" ||
  pyStartsWith s "Voices"

/-- `re.search(r'(Speaker|Chair|président)', who)`: substring containment of
any of the three chair-indicating words. -/
def hasChairWord (s : String) : Bool :=
  pyInStr "Speaker" s || pyInStr "Chair" s || pyInStr "président" s

/-- The `Statement` fields read and written by `save`'s procedural re-check. -/
structure DbStatement where
  contentEn : String
  contentFr : String
  who : String
  wordcount : Nat
  wordcountEn : Option Nat
  procedural : Bool
deriving DecidableEq

/-- The content normalization at the top of `Statement.save`:
`.replace('\n', '').replace('</p>', '</p>\n').strip()`. -/
def saveContentTransform (s : String) : String :=
  pyStrip (pyReplace (pyReplace s "\n" "") "</p>" "</p>\n")

/-- `Statement.html_to_text` (parameterized by the external `strip_tags`). -/
def htmlToText (stripTags : String → String) (text : String) : String :=
  pyStrip (stripTags
    (pyReplace (pyReplace (pyReplace (pyReplace text "\n" "") "<br>" "\n") "</p>" "\n\n")
      "&amp;" "&"))

/-- The per-paragraph original-language extraction of `_generate_wordcounts`:
`idx = para.find('data-originallang="')`; `None` when `idx == -1`, else the
two characters `para[idx+19:idx+21]`. -/
def originalLangOf (para : String) : Option String :=
  match pyFind para "data-originallang=\"" with
  | none => none
  | some idx => some ⟨(para.data.drop (idx + 19)).take 2⟩

/-- `Statement._generate_wordcounts`, returning `(wordcount, wordcount_en)`:
paragraphs are bucketed by original language (unmarked paragraphs are
procedural and uncounted; unrecognized markers count as English), each bucket
is joined with spaces, converted to plain text and whitespace-split. -/
def generateWordcounts (stripTags : String → String) (contentEn : String) : Nat × Nat :=
  let paras := pySplitChar '\n' contentEn
  let enParas := paras.filter (fun p =>
    match originalLangOf p with
    | none => false
    | some l => l ≠ "fr")
  let frParas := paras.filter (fun p => originalLangOf p = some "fr")
  let c0 := (pySplitWords (htmlToText stripTags (" ".intercalate enParas))).length
  let c1 := (pySplitWords (htmlToText stripTags (" ".intercalate frParas))).length
  (c0 + c1, c0)

/-- The procedural trigger condition of `Statement.save` (evaluated on the
already-normalized content). -/
def saveProceduralCond (st : DbStatement) : Bool :=
  (!st.procedural) && st.wordcount ≤ 300 &&
    ((rNotAMember st.who && hasChairWord st.who) || st.who = "" ||
      !((pySplitChar '\n' st.contentEn).any
          (fun p => !(pyInStr "class=\"procedural\"" p) && p ≠ "")))

/-- `Statement.save` (the in-memory field updates; the ORM write and URL
caching are external). -/
def statementSave (stripTags : String → String) (st : DbStatement) : DbStatement :=
  let st := { st with
    contentEn := saveContentTransform st.contentEn,
    contentFr := saveContentTransform st.contentFr }
  let st :=
    match st.wordcountEn with
    | some _ => st
    | none =>
      let wc := generateWordcounts stripTags st.contentEn
      { st with wordcount := wc.1, wordcountEn := some wc.2 }
  if saveProceduralCond st then { st with procedural := true } else st

end ProceduralCheck

section AlignSequences

/-!
  ## `_align_sequences` (`parl_document.py`)

Groups old and new statements by display name (a Python dict in insertion
order), pairs positionally when a named speaker has equal counts, otherwise
picks for each old statement the best-scoring candidate (Python `max` keeps
the first of equally-scored candidates, and raises `ValueError` on an empty
sequence — modelled by `Option`). -/

/-- `d.setdefault(key, []).append(s)` on an insertion-ordered dict. -/
def addToGroup (d : List (String × List RealignSt)) (key : String) (s : RealignSt) :
    List (String × List RealignSt) :=
  match d with
  | [] => [(key, [s])]
  | (k, group) :: rest =>
    if k = key then (k, group ++ [s]) :: rest
    else (k, group) :: addToGroup rest key s

/-- `build_speaker_dict`. -/
def buildSpeakerDict (states : List RealignSt) : List (String × List RealignSt) :=
  states.foldl (fun d s => addToGroup d s.displayName s) []

/-- `d.get(key, [])`. -/
def groupLookup (d : List (String × List RealignSt)) (key : String) : List RealignSt :=
  match d with
  | [] => []
  | (k, g) :: rest => if key = k then g else groupLookup rest key

/-- Python `max(pairs, key=lambda s: s[1])`: the first pair with maximal
score (`None` on the empty list, where Python raises `ValueError`). -/
def maxByScore (l : List (RealignSt × ℚ)) : Option (RealignSt × ℚ) :=
  match l with
  | [] => none
  | x :: rest => some (rest.foldl (fun best y => if best.2 < y.2 then y else best) x)

/-- Python `set.add` on the `chosen` set (modelled as a duplicate-free list). -/
def chosenAdd (chosen : List RealignSt) (s : RealignSt) : List RealignSt :=
  if s ∈ chosen then chosen else chosen ++ [s]

/-- The inner `for old in olds` loop of the count-mismatch branch, threading
`(mappings, chosen)`. -/
def alignOlds (candidates : List RealignSt) :
    List (Nat × String) × List RealignSt → List RealignSt →
      Option (List (Nat × String) × List RealignSt)
  | st, [] => some st
  | (mappings, chosen), old :: rest =>
    match maxByScore (candidates.map (fun cand => (cand, calculateSimilarity chosen old cand))) with
    | none => none
    | some choice =>
      alignOlds candidates
        (mappings ++ [(old.sequence, choice.1.slug)], chosenAdd chosen choice.1) rest

/-- The outer `for speaker, olds in list(old_speakers.items())` loop. -/
def alignGroups (newStatements : List RealignSt)
    (newSpeakers : List (String × List RealignSt)) :
    List (String × List RealignSt) → List (Nat × String) × List RealignSt →
      Option (List (Nat × String) × List RealignSt)
  | [], st => some st
  | (speaker, olds) :: rest, (mappings, chosen) =>
    let news := groupLookup newSpeakers speaker
    if speaker ≠ "" ∧ olds.length = news.length then
      alignGroups newStatements newSpeakers rest
        (mappings ++ (olds.zip news).map (fun p => (p.1.sequence, p.2.slug)), chosen)
    else
      let candidates := if news ≠ [] then news else newStatements
      match alignOlds candidates (mappings, chosen) olds with
      | none => none
      | some st => alignGroups newStatements newSpeakers rest st

/-- `_align_sequences(new_statements, old_statements)`; `none` models the
`ValueError` that `max` would raise on an empty candidate list. -/
def alignSequences (newStatements oldStatements : List RealignSt) :
    Option (List (Nat × String)) :=
  (alignGroups newStatements (buildSpeakerDict newStatements)
    (buildSpeakerDict oldStatements) ([], [])).map (·.1)

end AlignSequences

section AlpheusRegex

/-!
  ## The regex helpers of `alpheus.py`

Hand-compiled versions of the module-level regexes, matching Python `re`
semantics (leftmost match, ordered alternation, greedy quantifiers with
backtracking). -/

/-- Strip a literal prefix, or fail. -/
def stripLit (lit : List Char) (l : List Char) : Option (List Char) :=
  if lit.isPrefixOf l then some (l.drop lit.length) else none

/-- Match `\s` (exactly one whitespace character). -/
def ws1 : List Char → Option (List Char)
  | c :: r => if pyWs c then some r else none
  | _ => none

/-- Match `\.?\s` with backtracking: an optional dot followed by one
whitespace character. -/
def optDotWs : List Char → Option (List Char)
  | '.' :: c :: r => if pyWs c then some r else none
  | '.' :: [] => none
  | c :: r => if pyWs c then some r else none
  | [] => none

/-- One honorific alternative of `_r_honorific`: a literal followed by
`\.?\s`. -/
def honBranch (lit : String) (l : List Char) : Option (List Char) :=
  (stripLit lit.data l).bind optDotWs

/-- `_r_honorific.sub('', s)`:
`^(Mr\.?\s|Mrs\.?\s|Ms\.?\s|Miss\.?\s|Hon\.?\s|Right\sHon\.\s|M\.\s|L.hon\.?\s|Mme\.?\s|Mlle\.?\s|Dr\.?\s)`
removed from the front when it matches (alternatives tried in order; the `.`
of `L.hon` is an unescaped any-character-but-newline).  Anchored, so at most
one removal. -/
def honorificSub (s : String) : String :=
  let l := s.data
  let lhon : Option (List Char) :=
    match l with
    | 'L' :: c :: r => if c ≠ '\n' then (stripLit "hon".data r).bind optDotWs else none
    | _ => none
  let m :=
    (honBranch "Mr" l).orElse fun _ =>
    (honBranch "Mrs" l).orElse fun _ =>
    (honBranch "Ms" l).orElse fun _ =>
    (honBranch "Miss" l).orElse fun _ =>
    (honBranch "Hon" l).orElse fun _ =>
    (((((stripLit "Right".data l).bind ws1).bind (stripLit "Hon.".data)).bind ws1).orElse fun _ =>
    ((stripLit "M.".data l).bind ws1).orElse fun _ =>
    lhon.orElse fun _ =>
    (honBranch "Mme" l).orElse fun _ =>
    (honBranch "Mlle" l).orElse fun _ =>
    (honBranch "Dr" l))
  match m with
  | some rest => ⟨rest⟩
  | none => s

/-- Index of the first occurrence of `c`. -/
def firstIdx (c : Char) : List Char → Option Nat
  | [] => none
  | d :: rest => if d = c then some 0 else (firstIdx c rest).map (· + 1)

/-- `_r_parens.sub('', s)` for `_r_parens = re.compile(r'\s*\(.+\)\s*')`.
Scanning for the leftmost match of the greedy pattern: if the string contains
a `'('` (first at `q`) and a `')'` (last at `p`) with at least one character
in between, the match spans from `q` extended left over the whitespace run
immediately before it, to just past `p` extended right over the following
whitespace run; after its removal no `')'` remains, so there is no second
match. -/
def parensSub (s : String) : String :=
  let l := s.data
  match firstIdx '(' l, firstIdx ')' l.reverse with
  | some q, some pr =>
    let p := l.length - 1 - pr
    if q + 2 ≤ p then
      let i := q - ((l.take q).reverse.takeWhile pyWs).length
      let e := (p + 1) + ((l.drop (p + 1)).takeWhile pyWs).length
      ⟨l.take i ++ l.drop e⟩
    else s
  | _, _ => s

/-- `_r_indeterminate.search(s)` for `re.compile(r'^(An?|Une)\s')`: does the
string start with `A`, `An` or `Une` followed by a whitespace character? -/
def rIndeterminate (s : String) : Bool :=
  match s.data with
  | 'A' :: 'n' :: c :: _ => pyWs c
  | 'A' :: c :: _ => pyWs c
  | 'U' :: 'n' :: 'e' :: c :: _ => pyWs c
  | _ => false

/-- `re.search(r'\s?\((.+)\)\s*$', s)`, returning group 1.  A match exists
iff the last non-whitespace character is `')'` (at index `p`) and some `'('`
(first at `q`) lies at least two positions before it; the greedy group then
spans `s[q+1:p]`. -/
def contextMatch (s : String) : Option String :=
  let l := s.data
  let rev := l.reverse
  let wsRun := (rev.takeWhile pyWs).length
  match rev.dropWhile pyWs with
  | ')' :: _ =>
    let p := l.length - wsRun - 1
    match firstIdx '(' l with
    | some q => if q + 2 ≤ p then some ⟨(l.drop (q + 1)).take (p - (q + 1))⟩ else none
    | none => none
  | _ => none

/-- `re.search(r'data-HoCid="(\d+)"', s)`, returning group 1: scan for the
first occurrence of the literal `data-HoCid="` followed by at least one
decimal digit whose maximal run is itself followed by `'"'`. -/
def extractHoCid : List Char → Option String
  | [] => none
  | c :: rest =>
    let l := c :: rest
    if "data-HoCid=\"".data.isPrefixOf l then
      let after := l.drop 12
      let digits := after.takeWhile Char.isDigit
      if digits ≠ [] ∧ (after.drop digits.length).head? = some '"' then some ⟨digits⟩
      else extractHoCid rest
    else extractHoCid rest

/-- `alpheus._strip_person_name`:
`_r_honorific.sub('', _r_parens.sub('', _tame_whitespace(name))).strip()`. -/
def stripPersonName (name : String) : String :=
  pyStrip (honorificSub (parensSub (tameWhitespace name)))

end AlpheusRegex

section ParseHandler

/-!
  ## `ParseHandler` state and statement lifecycle (`alpheus.py`)

The mutable parser state (`statements`, `current_statement`,
`one_time_attributes`, the heading/language fields of `current_attributes`,
and the three people-memoization dicts) and the operations `close_statement`,
`_initialize_statement`, `_add_code`, `_new_person`, `get_final_statements`.
Statement `meta` dicts are modelled with one field per key that the source
ever stores, where `none` means the key is absent; the `id` key can be
present with value `None`, hence `Option (Option String)`.

The Python exception classes that can escape are modelled by `PyErr`:
`AlpheusError`, the `AttributeError` raised by
`re.search(...).group(1)` on a failed match in `clean_up_content`, and
`AssertionError` from `assert` statements. -/

inductive PyErr where
  | alpheus (msg : String)
  | attrError
  | assertError
deriving DecidableEq

/-- Dict lookup where the most recent assignment is found first. -/
def dlookup : List (String × String) → String → Option String
  | [], _ => none
  | (k, v) :: rest, key => if key = k then some v else dlookup rest key

/-- Dict assignment (prepend; `dlookup` then sees the latest value). -/
def dset (m : List (String × String)) (k v : String) : List (String × String) :=
  (k, v) :: m

/-- Python truthiness of an optional string. -/
def optTruthy : Option String → Bool
  | some t => t ≠ ""
  | none => false

/-- The `one_time_attributes` dict (keys the source ever stores in it). -/
structure OneTime where
  personAttribution : Option String := none
  personId : Option String := none
  personType : Option String := none
  personContext : Option String := none
  interventionType : Option String := none
  idKey : Option (Option String) := none
  writtenQuestion : Option String := none
  hasNonProcedural : Bool := false
deriving DecidableEq

/-- A draft `Statement`: its `meta` dict (current attributes merged with
one-time attributes; the key sets are disjoint) plus accumulated `content`. -/
structure PStatement where
  personAttribution : Option String := none
  personId : Option String := none
  personType : Option String := none
  personContext : Option String := none
  interventionType : Option String := none
  writtenQuestion : Option String := none
  hasNonProcedural : Bool := false
  idKey : Option (Option String) := none
  h1 : Option String := none
  h2 : Option String := none
  h3 : Option String := none
  language : Option String := none
  timestamp : Option Nat := none
  content : String := ""
deriving DecidableEq

/-- The `ParseHandler` mutable state. -/
structure ParseState where
  statements : List PStatement := []
  currentStatement : Option PStatement := none
  oneTime : OneTime := {}
  currentH1 : Option String := none
  currentH2 : Option String := none
  currentH3 : Option String := none
  currentLanguage : Option String := none
  currentTimestamp : Option Nat := none
  peopleSeen : List (String × String) := []
  peopleTypesSeen : List (String × String) := []
  peopleContexts : List (String × String) := []
deriving DecidableEq

/-- The fresh statement built by `_initialize_statement`:
`Statement(self.current_attributes, self.one_time_attributes)`. -/
def newStatementFrom (s : ParseState) : PStatement where
  personAttribution := s.oneTime.personAttribution
  personId := s.oneTime.personId
  personType := s.oneTime.personType
  personContext := s.oneTime.personContext
  interventionType := s.oneTime.interventionType
  writtenQuestion := s.oneTime.writtenQuestion
  hasNonProcedural := s.oneTime.hasNonProcedural
  idKey := s.oneTime.idKey
  h1 := s.currentH1
  h2 := s.currentH2
  h3 := s.currentH3
  language := s.currentLanguage
  timestamp := s.currentTimestamp
  content := ""

/-- `_initialize_statement` (asserts no statement is open, creates one from
the current and one-time attributes, clears the one-time dict). -/
def initializeStatement (s : ParseState) : Except PyErr ParseState :=
  match s.currentStatement with
  | some _ => .error .assertError
  | none => .ok { s with currentStatement := some (newStatementFrom s), oneTime := {} }

/-- `_add_code`: append HTML to the current statement, opening one first if
none is open; the empty string is a no-op. -/
def addCode (s : ParseState) (code : String) : Except PyErr ParseState :=
  if code = "" then .ok s
  else
    match s.currentStatement with
    | some cur =>
      .ok { s with currentStatement := some { cur with content := cur.content ++ code } }
    | none =>
      let fresh := newStatementFrom s
      .ok { s with
        currentStatement := some { fresh with content := code },
        oneTime := {} }

/-- `Statement.clean_up_content`: tame whitespace, drop
`'</blockquote><blockquote>'` seams, and default the `id` meta key from the
first `data-HoCid="(\d+)"` in the content — where a failed search raises
`AttributeError` (`None.group`), modelled by `none`. -/
def cleanUpContent (st : PStatement) : Option PStatement :=
  let c := pyReplace (tameWhitespace st.content) "</blockquote><blockquote>" ""
  match st.idKey with
  | some v => some { st with content := c, idKey := some v }
  | none =>
    match extractHoCid c.data with
    | some d => some { st with content := c, idKey := some (some ("p" ++ d)) }
    | none => none

/-- `close_statement`: finalize the open statement, raising `AlpheusError`
when its cleaned content is empty, and appending it to the output list
otherwise. -/
def closeStatement (s : ParseState) : Except PyErr ParseState :=
  match s.currentStatement with
  | none => .ok s
  | some st =>
    match cleanUpContent st with
    | none => .error .attrError
    | some cleaned =>
      if pyStrip cleaned.content = "" then
        .error (.alpheus "Trying to save a statement without content")
      else
        .ok { s with statements := s.statements ++ [cleaned], currentStatement := none }

/-- `get_final_statements`: close the open statement only when its raw
content has non-whitespace characters, then return the output list. -/
def getFinalStatements (s : ParseState) : Except PyErr (List PStatement) :=
  match s.currentStatement with
  | some st =>
    if pyStrip st.content ≠ "" then (closeStatement s).map (·.statements)
    else .ok s.statements
  | none => .ok s.statements

/-- The attribute-assignment tail of `_new_person` (everything after the
possible early return): record the attribution, backfill id/type/context from
the memoization dicts, and save backreferences under both the raw and the
stripped description. -/
def newPersonAssign (s : ParseState) (hocId : Option String)
    (description strippedDescription : String) (affilType : Option String) : ParseState :=
  let ot := { s.oneTime with personAttribution := some description }
  let idFromSeen : OneTime → OneTime := fun ot =>
    match dlookup s.peopleSeen strippedDescription with
    | some v => { ot with personId := some v }
    | none => ot
  let ot :=
    match hocId with
    | some i => if i = "" then idFromSeen ot else { ot with personId := some i }
    | none => idFromSeen ot
  let ot :=
    if affilType = some "28" then { ot with personType := some "witness" }
    else if affilType = some "27" then { ot with personType := some "clerk" }
    else if affilType = some "26" then { ot with personType := some "analyst" }
    else if affilType = none ∨ affilType = some "" then
      match dlookup s.peopleTypesSeen strippedDescription with
      | some t => { ot with personType := some t }
      | none => ot
    else ot
  let ot :=
    match contextMatch description with
    | some ctx => { ot with personContext := some ctx }
    | none =>
      match dlookup s.peopleContexts strippedDescription with
      | some c => { ot with personContext := some c }
      | none => ot
  let hocTruthy := optTruthy hocId
  let seen :=
    if hocTruthy then
      dset (dset s.peopleSeen description (hocId.getD "")) strippedDescription (hocId.getD "")
    else s.peopleSeen
  let types :=
    if optTruthy ot.personType then
      dset (dset s.peopleTypesSeen description (ot.personType.getD ""))
        strippedDescription (ot.personType.getD "")
    else s.peopleTypesSeen
  let contexts :=
    if optTruthy ot.personContext then
      dset (dset s.peopleContexts description (ot.personContext.getD ""))
        strippedDescription (ot.personContext.getD "")
    else s.peopleContexts
  { s with oneTime := ot, peopleSeen := seen, peopleTypesSeen := types,
           peopleContexts := contexts }

/-- `_new_person(hoc_id, description, affil_type)`: decide whether the signal
is the same speaker continuing (in which case nothing changes), otherwise
close the open statement and record the new attribution.  The inner
`is_new_person()` — which, despite its name, returns `True` for the *same*
speaker — asserts that an open statement has a `person_attribution` before
comparing letters-only normalizations. -/
def newPerson (s : ParseState) (hocId : Option String) (description0 : String)
    (affilType : Option String) : Except PyErr ParseState :=
  let description := tameWhitespace description0
  let strippedDescription := stripPersonName description
  match s.currentStatement with
  | some cur =>
    let same : Except PyErr Bool :=
      match hocId with
      | some i =>
        if i ≠ "" ∧ cur.personId = some i then .ok true else .ok false
      | none =>
        match cur.personAttribution with
        | none => .error .assertError
        | some pa =>
          .ok (lettersOnly strippedDescription = lettersOnly (stripPersonName pa))
    match same with
    | .error e => .error e
    | .ok b =>
      if b ∧ ¬ rIndeterminate description then .ok s
      else
        match closeStatement s with
        | .error e => .error e
        | .ok s' => .ok (newPersonAssign s' hocId description strippedDescription affilType)
  | none => .ok (newPersonAssign s hocId description strippedDescription affilType)

end ParseHandler

section Walker

/-!
  ## Tag dispatch, the default handler, and the tree walk (`alpheus.py`)

`parse_tree` walks the element tree depth-first; each element's handler is
looked up as `handle_<tag>` with a `__getattr__` fallback to
`_default_handler`.  The handler is called on `TAG_OPEN`; unless it returns
`NO_DESCEND`, the children are explored and the handler is called again on
`TAG_CLOSE`.

For this model an element carries its tag, `text`, `tail` and children.  The
tags with dedicated `handle_` methods are listed in `handledTags`, and their
behavior is abstracted by a handler parameter `kh` — the claims settled here
concern only elements that reach `_default_handler`.  (The dynamic
`alpheus_skip_text` marker is only ever set on `B`/`Affiliation` elements,
which have dedicated handlers, so it never influences the default handler.)
A `ParseState` field `inPara` mirrors `self.in_para`. -/

/-- `in_para` lives on the handler; it is carried alongside the parse state. -/
structure WalkState where
  ps : ParseState
  inPara : Bool
deriving DecidableEq

inductive TagEvent where
  | tagOpen
  | tagClose
deriving DecidableEq

/-- An XML element: tag, `text`, `tail`, children. -/
inductive XTree where
  | node (tag : String) (text : String) (tail : String) (children : List XTree)

def XTree.tag : XTree → String
  | .node t _ _ _ => t

def XTree.text : XTree → String
  | .node _ txt _ _ => txt

def XTree.tail : XTree → String
  | .node _ _ tl _ => tl

def XTree.children : XTree → List XTree
  | .node _ _ _ cs => cs

/-- `EXCLUDE_TAGS`. -/
def excludeTags : List String :=
  ["CatchLine", "Prayer", "QuestionID", "Appendix"]

/-- `PASSTHROUGH_TAGS` (tag renames). -/
def passthroughTags : List (String × String) :=
  [("I", "em"), ("Sup", "sup"), ("Sub", "sub"), ("table", "table"),
   ("row", "tr"), ("entry", "td")]

/-- The explicitly listed part of `IGNORE_TAGS` (the source also appends the
passthrough keys, and `etree.ProcessingInstruction`, whose tag is not a
string and is outside this model). -/
def ignoreTagsBase : List String :=
  ["Quote", "QuotePara", "ForceColumnBreak", "SubjectOfBusinessContent",
   "Content", "HansardBody", "Intro", "Poetry", "Query", "Motion",
   "MotionBody", "CommitteeQuote", "LegislationQuote", "Pause", "StartPause",
   "EndPause", "Date", "Insertion", "colspec", "tgroup", "tbody", "thead",
   "title", "EditorsNotes"]

/-- `IGNORE_TAGS` as built in the source: the base list plus the passthrough
keys. -/
def ignoreTags : List String :=
  ignoreTagsBase ++ passthroughTags.map (·.1)

/-- The tags for which `ParseHandler` defines a `handle_<tag>` method. -/
def handledTags : List String :=
  ["ParaText", "ProceduralText", "ThroneSpeechPara", "ThroneSpeech", "B",
   "Verse", "Line", "PersonSpeaking", "Questioner", "Responder",
   "Intervention", "FloorLanguage", "Timestamp",
   "SubjectOfBusinessQualifier", "SubjectOfBusinessTitle",
   "SubjectOfBusiness", "OrderOfBusiness", "OrderOfBusinessTitle",
   "WrittenQuestionResponse", "QuestionContent", "ResponseContent",
   "Affiliation", "Document", "Division"]

/-- `html.escape(s, quote=False)`: escape `&`, `<`, `>`. -/
def escapeChar (c : Char) : List Char :=
  if c = '&' then "&amp;".data
  else if c = '<' then "&lt;".data
  else if c = '>' then "&gt;".data
  else [c]

/-- `alpheus.escape`. -/
def pyEscape (s : String) : String :=
  ⟨s.data.flatMap escapeChar⟩

/-- `_add_text`: escape and append, skipping falsy strings. -/
def addText (s : ParseState) (txt : String) : Except PyErr ParseState :=
  if txt = "" then .ok s else addCode s (pyEscape txt)

/-- `_add_tag_text`: on open append the element's `text`, on close its
`tail` (no `alpheus_skip_text` marker reaches the default handler). -/
def addTagText (el : XTree) (ev : TagEvent) (s : ParseState) : Except PyErr ParseState :=
  match ev with
  | .tagOpen => addText s el.text
  | .tagClose => addText s el.tail

/-- A handler: element, open/close event, walk state; returns the
`NO_DESCEND` flag and the new state, or raises. -/
def Handler : Type :=
  XTree → TagEvent → WalkState → Except PyErr (Bool × WalkState)

/-- `_default_handler`: excluded tags return `NO_DESCEND` immediately;
passthrough tags emit their renamed output tag; inside a paragraph the
element's text/tail is appended; and an unrecognized tag on the open event
raises `AlpheusError`. -/
def defaultHandler : Handler := fun el ev w =>
  if el.tag ∈ excludeTags then .ok (true, w)
  else
    let step1 : Except PyErr ParseState :=
      match passthroughTags.lookup el.tag with
      | some outTag =>
        addCode w.ps ("<" ++ (if ev = .tagClose then "/" else "") ++ outTag ++ ">")
      | none => .ok w.ps
    match step1 with
    | .error e => .error e
    | .ok ps₁ =>
      let step2 : Except PyErr ParseState :=
        if w.inPara then addTagText el ev ps₁ else .ok ps₁
      match step2 with
      | .error e => .error e
      | .ok ps₂ =>
        if ev = .tagOpen ∧ el.tag ∉ ignoreTags then
          .error (.alpheus ("I don't know how to handle tag " ++ el.tag))
        else .ok (false, { w with ps := ps₂ })

/-- Dispatch: `getattr(handler, 'handle_' + tag)` with the `__getattr__`
fallback to the default handler; the behavior of the dedicated handlers is
the parameter `kh`. -/
def dispatch (kh : Handler) (el : XTree) : XTree → TagEvent → WalkState → Except PyErr (Bool × WalkState) :=
  if el.tag ∈ handledTags then kh else defaultHandler

mutual

/-- `_explore_element`: call the handler on open; unless it returns
`NO_DESCEND`, explore the children and call the handler on close (whose
return value is ignored). -/
def explore (kh : Handler) : XTree → WalkState → Except PyErr WalkState
  | .node t txt tl cs, w =>
    let el := XTree.node t txt tl cs
    match dispatch kh el el .tagOpen w with
    | .error e => .error e
    | .ok (noDescend, w₁) =>
      if noDescend then .ok w₁
      else
        match exploreList kh cs w₁ with
        | .error e => .error e
        | .ok w₂ =>
          match dispatch kh el el .tagClose w₂ with
          | .error e => .error e
          | .ok (_, w₃) => .ok w₃

def exploreList (kh : Handler) : List XTree → WalkState → Except PyErr WalkState
  | [], w => .ok w
  | c :: rest, w =>
    match explore kh c w with
    | .error e => .error e
    | .ok w₁ => exploreList kh rest w₁

end

end Walker

section HeadingOps

/-!
  ## The heading-scope operations (`alpheus.py` handlers)

The handlers that touch `current_attributes` and the statement lifecycle,
transcribed as an operation alphabet over `ParseState` (each operation's
payload is the already-extracted attribute or text value, since XML access is
orthogonal to the state transition):

* `qualifier t` — `handle_SubjectOfBusinessQualifier` (open; it returns
  `NO_DESCEND`, so no close event occurs): `current_attributes['h3'] = t`;
* `sobTitle t` — `handle_SubjectOfBusinessTitle`: sets `h2`;
* `sobClose` — `handle_SubjectOfBusiness` on close: deletes `h3`;
* `oobTitle t` — `handle_OrderOfBusinessTitle`: sets `h1`;
* `oobClose` — `handle_OrderOfBusiness` on close: deletes `h1` and `h2`;
* `wqrOpen q` — `handle_WrittenQuestionResponse` on open: sets `h3` from the
  `QuestionID` child when present;
* `wqrClose` — its close: deletes `h3` when it starts with `question`;
* `interventionOpen ty id` — `handle_Intervention` on open: one-time
  `intervention_type` and `id`;
* `interventionClose` — its close: `close_statement()` (also the close
  behavior of `QuestionContent`/`ResponseContent`);
* `floorLanguage l` — `handle_FloorLanguage`;
* `timestampOp t` — `handle_Timestamp`: sets the current timestamp and
  back-applies it to a still-procedural open statement;
* `personSignal ...` — `_new_person` (from `PersonSpeaking`/`Questioner`/
  `Responder`/`ThroneSpeech`/the bold-name `ParaText` special case);
* `addContent c` — `_add_code` from the content handlers. -/

/-- Python `str.lower` (ASCII model). -/
def pyLowerStr (s : String) : String :=
  ⟨s.data.map pyLowerChar⟩

inductive HOp where
  | qualifier (text : String)
  | sobTitle (text : String)
  | sobClose
  | oobTitle (text : String)
  | oobClose
  | wqrOpen (qid : Option String)
  | wqrClose
  | interventionOpen (itype : Option String) (idAttr : Option String)
  | interventionClose
  | floorLanguage (lang : Option String)
  | timestampOp (t : Nat)
  | personSignal (hocId : Option String) (description : String) (affilType : Option String)
  | addContent (code : String)
deriving DecidableEq

/-- Apply one handler operation to the parser state. -/
def applyOp (s : ParseState) : HOp → Except PyErr ParseState
  | .qualifier text => .ok { s with currentH3 := some text }
  | .sobTitle text => .ok { s with currentH2 := some text }
  | .sobClose => .ok { s with currentH3 := none }
  | .oobTitle text => .ok { s with currentH1 := some text }
  | .oobClose => .ok { s with currentH1 := none, currentH2 := none }
  | .wqrOpen qid =>
    match qid with
    | some t => .ok { s with currentH3 := some t }
    | none => .ok s
  | .wqrClose =>
    if pyStartsWith (pyLowerStr (s.currentH3.getD "")) "question" then
      .ok { s with currentH3 := none }
    else .ok s
  | .interventionOpen ty idAttr =>
    .ok { s with oneTime :=
      { s.oneTime with interventionType := ty, idKey := some idAttr } }
  | .interventionClose => closeStatement s
  | .floorLanguage l => .ok { s with currentLanguage := l }
  | .timestampOp t =>
    let cur :=
      match s.currentStatement with
      | some c => if c.hasNonProcedural then some c else some { c with timestamp := some t }
      | none => none
    .ok { s with currentTimestamp := some t, currentStatement := cur }
  | .personSignal hocId desc affil => newPerson s hocId desc affil
  | .addContent code => addCode s code

/-- Run a sequence of handler operations. -/
def runOps (s : ParseState) : List HOp → Except PyErr ParseState
  | [] => .ok s
  | op :: rest =>
    match applyOp s op with
    | .error e => .error e
    | .ok s' => runOps s' rest

/-- The operations that can set the `h3` attribute. -/
def setsH3 : HOp → Bool
  | .qualifier _ => true
  | .wqrOpen (some _) => true
  | _ => false

/-- The stale-`h3` invariant: the walker's `h3` attribute is clear, any open
statement carries no `h3`, and every finalized statement either predates
`base` or carries no `h3`. -/
def H3Inv (base : List PStatement) (s : ParseState) : Prop :=
  s.currentH3 = none ∧
  (∀ c, s.currentStatement = some c → c.h3 = none) ∧
  (∀ q ∈ s.statements, q ∈ base ∨ q.h3 = none)

end HeadingOps

section BilingualMerge

/-!
  ## The bilingual merge of `import_document` (`parl_document.py`)

```python
_r_paragraphs = re.compile(r'<p[^>]* data-HoCid=.+?</p>')
_r_paragraph_id = re.compile(r'<p[^>]* data-HoCid="(?P<id>\d+)"')
```

`_r_paragraphs.findall`/`.sub` scan for non-overlapping leftmost matches;
inside a match the greedy `[^>]*` is tried longest-first, and the lazy `.+?`
takes the nearest following `</p>` reachable without a newline.
`_get_paragraph_id` anchors `_r_paragraph_id` at the start of a paragraph and
raises `AttributeError` (`None.group`) when it fails — modelled by `Option`.
`_process_related_links` resolves politician/bill/vote links against the ORM
(an external collaborator) and is a function parameter `plinks` here.  The
`h1_fr`/`who_fr` metadata copies are omitted: the claims concern content
pairing and the `multilingual` flag. -/

/-- `int(...)` on a run of decimal digit characters. -/
def digitsVal (l : List Char) : Nat :=
  l.foldl (fun acc c => acc * 10 + (c.toNat - 48)) 0

/-- The lazy `.+?</p>` tail: the smallest `d ≥ 0` such that the first `d`
characters are not newlines and `</p>` follows; returns `d + 4` (the total
consumed length), or `none`. -/
def findClose0 : List Char → Option Nat
  | [] => none
  | c :: rest =>
    if "</p>".data.isPrefixOf (c :: rest) then some 4
    else if c = '\n' then none
    else (findClose0 rest).map (· + 1)

/-- `.+?</p>` (at least one character before `</p>`). -/
def findCloseAfter : List Char → Option Nat
  | [] => none
  | c :: rest => if c = '\n' then none else (findClose0 rest).map (· + 1)

/-- One backtracking attempt ladder for the greedy `[^>]*` of
`_r_paragraphs`, anchored after `<p`: try `k` characters of `[^>]*`, then the
literal ` data-HoCid=`, then `.+?</p>`; on failure retry with `k - 1`. -/
def tryRun (rest : List Char) : Nat → Option Nat
  | 0 =>
    if " data-HoCid=".data.isPrefixOf rest then
      (findCloseAfter (rest.drop 12)).map (fun m => 12 + m)
    else none
  | k + 1 =>
    (if " data-HoCid=".data.isPrefixOf (rest.drop (k + 1)) then
      (findCloseAfter (rest.drop (k + 1 + 12))).map (fun m => k + 1 + 12 + m)
    else none).orElse (fun _ => tryRun rest k)

/-- Match `_r_paragraphs` at this position, returning the match length. -/
def matchParaAt (l : List Char) : Option Nat :=
  if "<p".data.isPrefixOf l then
    let rest := l.drop 2
    (tryRun rest (rest.takeWhile (· ≠ '>')).length).map (· + 2)
  else none

/-- `_r_paragraphs.findall(content)` (fuel: the content length). -/
def paraFindallF : Nat → List Char → List String
  | 0, _ => []
  | _, [] => []
  | fuel + 1, c :: rest =>
    match matchParaAt (c :: rest) with
    | some len => (⟨(c :: rest).take len⟩ : String) :: paraFindallF fuel ((c :: rest).drop len)
    | none => paraFindallF fuel rest

def rParagraphsFindall (s : String) : List String :=
  paraFindallF s.data.length s.data

/-- `_r_paragraphs.sub(f, content)` where the replacement function may raise
(`none`). -/
def paraSubF (f : String → Option String) : Nat → List Char → Option (List Char)
  | 0, l => some l
  | _, [] => some []
  | fuel + 1, c :: rest =>
    match matchParaAt (c :: rest) with
    | some len =>
      match f ⟨(c :: rest).take len⟩ with
      | none => none
      | some repl =>
        (paraSubF f fuel ((c :: rest).drop len)).map (fun t => repl.data ++ t)
    | none => (paraSubF f fuel rest).map (fun t => c :: t)

/-- Backtracking ladder for `_r_paragraph_id`'s `[^>]*`, anchored after
`<p`: `k` characters, the literal ` data-HoCid="`, one-or-more digits, a
closing quote. -/
def tryIdRun (rest : List Char) : Nat → Option Nat
  | 0 => tryIdAt rest 0
  | k + 1 => (tryIdAt rest (k + 1)).orElse (fun _ => tryIdRun rest k)
where
  tryIdAt (rest : List Char) (k : Nat) : Option Nat :=
    if " data-HoCid=\"".data.isPrefixOf (rest.drop k) then
      let after := (rest.drop k).drop 13
      let ds := after.takeWhile Char.isDigit
      if ds ≠ [] ∧ (after.drop ds.length).head? = some '"' then some (digitsVal ds)
      else none
    else none

/-- `_get_paragraph_id(p)`: `int(_r_paragraph_id.match(p).group('id'))`;
`none` models the `AttributeError` on a failed match. -/
def paragraphId (p : String) : Option Nat :=
  let l := p.data
  if "<p".data.isPrefixOf l then
    let rest := l.drop 2
    tryIdRun rest (rest.takeWhile (· ≠ '>')).length
  else none

/-- `_get_paragraphs_and_ids(content)`. -/
def getParagraphsAndIds (content : String) : Option (List (String × Nat)) :=
  (rParagraphsFindall content).mapM (fun p => (paragraphId p).map (fun i => (p, i)))

/-- The fields of an already-built English `Statement` that the merge reads. -/
structure EnSt where
  sourceId : String
  contentEn : String
deriving DecidableEq

/-- A French alpheus statement: its `meta['id']` (possibly `None`) and
content. -/
structure FrSt where
  idMeta : Option String
  content : String
deriving DecidableEq

/-- Lookup in the French-paragraph dict (latest assignment first). -/
def nlookup : List (Nat × String) → Nat → Option String
  | [], _ => none
  | (k, v) :: rest, key => if key = k then some v else nlookup rest key

/-- Lookup in the French-statement dict (latest assignment first). -/
def frStLookup : List (String × FrSt) → String → Option FrSt
  | [], _ => none
  | (k, v) :: rest, key => if key = k then some v else frStLookup rest key

/-- The French preparation loop: builds `fr_statements` (keyed by truthy
statement ids), `fr_paragraphs` (keyed by nonzero paragraph ids) and
`missing_id_count`; `none` models an `AttributeError` from
`_get_paragraph_id`. -/
def frDicts (frStatements : List FrSt) :
    Option (List (Nat × String) × List (String × FrSt) × Nat) :=
  frStatements.foldlM
    (fun acc alph => do
      let (paras, sts, miss) := acc
      let sts := match alph.idMeta with
        | some i => if i ≠ "" then (i, alph) :: sts else sts
        | none => sts
      let pids ← getParagraphsAndIds alph.content
      let (paras, miss) := pids.foldl
        (fun pm pp =>
          if pp.2 ≠ 0 then ((pp.2, pp.1) :: pm.1, pm.2) else (pm.1, pm.2 + 1))
        (paras, miss)
      pure (paras, sts, miss))
    ([], [], 0)

/-- `len(fr_paragraphs)`: the number of distinct keys. -/
def frParasLen (paras : List (Nat × String)) : Nat :=
  (paras.map (·.1)).dedup.length

/-- `_substitute_french_content`: substitute a paragraph by its same-id
French paragraph; `KeyError` (id absent from the dict) and a zero id keep the
original; a failed id parse propagates (`none`). -/
def substituteFrench (frParas : List (Nat × String)) (p : String) : Option String :=
  match paragraphId p with
  | none => none
  | some pid =>
    if pid ≠ 0 then
      match nlookup frParas pid with
      | some fr => some fr
      | none => some p
    else some p

/-- The per-statement body of the merge loop: returns the `content_fr` to
assign (if any) and whether a bilingual match succeeded (`false` triggers
`document.multilingual = False`); `none` models a raised `AttributeError`. -/
def mergeStatement (plinks : String → String) (frParas : List (Nat × String))
    (frSts : List (String × FrSt)) (st : EnSt) : Option (Option String × Bool) := do
  let frData := frStLookup frSts st.sourceId
  let pidsEn ← (getParagraphsAndIds st.contentEn).map (·.map (·.2))
  let byParagraph : Option (Option String × Bool) :=
    if pidsEn.all (· ≠ 0) then do
      let subbed ← paraSubF (substituteFrench frParas) st.contentEn.data.length
        st.contentEn.data
      pure (some (plinks ⟨subbed⟩), true)
    else
      pure (none, false)
  match frData with
  | some fr => do
    let pidsFr ← (getParagraphsAndIds fr.content).map (·.map (·.2))
    if pidsEn = pidsFr then pure (some (plinks fr.content), true)
    else byParagraph
  | none => byParagraph

/-- One step of the merge loop: thread the `multilingual` flag and collect
the statement's assigned French content. -/
def mergeFoldStep (plinks : String → String) (frParas : List (Nat × String))
    (frSts : List (String × FrSt)) (acc : Bool × List (EnSt × Option String))
    (st : EnSt) : Option (Bool × List (EnSt × Option String)) := do
  let (cfr, ok) ← mergeStatement plinks frParas frSts st
  pure (acc.1 && ok, acc.2 ++ [(st, cfr)])

/-- The bilingual-merge phase of `import_document`: the per-document
missing-id guard, then the per-statement loop threading the `multilingual`
flag.  Returns the flag and, per statement, the `content_fr` assigned. -/
def importMerge (plinks : String → String) (enSts : List EnSt) (frSts : List FrSt) :
    Option (Bool × List (EnSt × Option String)) := do
  let (frParas, frStDict, missing) ← frDicts frSts
  if missing > frParasLen frParas then
    pure (false, enSts.map (fun st => (st, none)))
  else
    enSts.foldlM (mergeFoldStep plinks frParas frStDict) (true, [])

end BilingualMerge

/-!
  # Lemmas and claim theorems
-/

section SlugLemmas

lemma toDigitsCore_all {P : Char → Prop} (hP : ∀ m, m < 10 → P (Nat.digitChar m)) :
    ∀ (fuel n : Nat) (l : List Char), (∀ c ∈ l, P c) →
      ∀ c ∈ Nat.toDigitsCore 10 fuel n l, P c := by
  intro fuel
  induction fuel with
  | zero => intro n l hl c hc; exact hl c hc
  | succ fuel ih =>
    intro n l hl c hc
    have hd : P (Nat.digitChar (n % 10)) := hP _ (Nat.mod_lt _ (by norm_num))
    simp only [Nat.toDigitsCore] at hc
    by_cases h0 : n / 10 = 0
    · rw [if_pos h0] at hc
      rcases List.mem_cons.mp hc with rfl | hc
      · exact hd
      · exact hl c hc
    · rw [if_neg h0] at hc
      refine ih (n / 10) (Nat.digitChar (n % 10) :: l) ?_ c hc
      intro d hdm
      rcases List.mem_cons.mp hdm with rfl | hdm
      · exact hd
      · exact hl d hdm

lemma decValue_toDigitsCore :
    ∀ (fuel n : Nat) (l : List Char), n < fuel →
      decValue (Nat.toDigitsCore 10 fuel n l) = n * 10 ^ l.length + decValue l := by
  intro fuel
  induction fuel with
  | zero => intro n l h; omega
  | succ fuel ih =>
    intro n l h
    have hmod : (Nat.digitChar (n % 10)).toNat - 48 = n % 10 := by
      have h10 : n % 10 < 10 := Nat.mod_lt _ (by norm_num)
      interval_cases h : n % 10 <;> simp_all <;> rfl
    simp only [Nat.toDigitsCore]
    by_cases h0 : n / 10 = 0
    · rw [if_pos h0]
      have hnn : n % 10 = n := by omega
      simp only [decValue]
      rw [hmod, hnn]
    · rw [if_neg h0]
      have hlt : n / 10 < fuel := by omega
      rw [ih (n / 10) (Nat.digitChar (n % 10) :: l) hlt]
      simp only [decValue, List.length_cons, hmod]
      have hn : n = 10 * (n / 10) + n % 10 := (Nat.div_add_mod n 10).symm
      conv_rhs => rw [hn]
      ring

lemma decValue_repr (n : Nat) : decValue (Nat.repr n).data = n := by
  have h : (Nat.repr n).data = Nat.toDigitsCore 10 (n + 1) n [] := rfl
  rw [h, decValue_toDigitsCore (n + 1) n [] (Nat.lt_succ_self n)]
  simp [decValue]

lemma repr_injective {a b : Nat} (h : Nat.repr a = Nat.repr b) : a = b := by
  have := congrArg (fun s => decValue s.data) h
  simpa [decValue_repr] using this

lemma repr_no_hyphen (n : Nat) : ∀ c ∈ (Nat.repr n).data, c ≠ '-' := by
  intro c hc
  have h : (Nat.repr n).data = Nat.toDigitsCore 10 (n + 1) n [] := rfl
  rw [h] at hc
  have hdig : '0' ≤ c ∧ c ≤ '9' := by
    refine toDigitsCore_all (P := fun c => '0' ≤ c ∧ c ≤ '9') ?_ (n + 1) n [] (by simp) c hc
    intro m hm
    interval_cases m <;> decide
  rintro rfl
  revert hdig
  decide

lemma hyphen_append_inj :
    ∀ (b₁ b₂ e₁ e₂ : List Char), (∀ c ∈ e₁, c ≠ '-') → (∀ c ∈ e₂, c ≠ '-') →
      b₁ ++ '-' :: e₁ = b₂ ++ '-' :: e₂ → b₁ = b₂ ∧ e₁ = e₂ := by
  intro b₁
  induction b₁ with
  | nil =>
    intro b₂ e₁ e₂ h₁ h₂ he
    cases b₂ with
    | nil => simpa using he
    | cons c b₂ =>
      exfalso
      simp only [List.nil_append, List.cons_append, List.cons.injEq] at he
      obtain ⟨rfl, he⟩ := he
      exact h₁ '-' (he ▸ List.mem_append_right _ (List.mem_cons_self _ _)) rfl
  | cons c b₁ ih =>
    intro b₂ e₁ e₂ h₁ h₂ he
    cases b₂ with
    | nil =>
      exfalso
      simp only [List.nil_append, List.cons_append, List.cons.injEq] at he
      obtain ⟨rfl, he⟩ := he
      exact h₂ '-' (he.symm ▸ List.mem_append_right _ (List.mem_cons_self _ _)) rfl
    | cons c₂ b₂ =>
      simp only [List.cons_append, List.cons.injEq] at he
      obtain ⟨rfl, he⟩ := he
      obtain ⟨hb, hee⟩ := ih b₂ e₁ e₂ h₁ h₂ he
      exact ⟨by rw [hb], hee⟩

lemma slug_parts_inj {b₁ b₂ : String} {k₁ k₂ : Nat}
    (h : b₁ ++ "-" ++ Nat.repr k₁ = b₂ ++ "-" ++ Nat.repr k₂) : b₁ = b₂ ∧ k₁ = k₂ := by
  obtain ⟨l₁⟩ := b₁
  obtain ⟨l₂⟩ := b₂
  have hd := congrArg String.data h
  simp only [String.data_append] at hd
  have hd2 : l₁ ++ '-' :: (Nat.repr k₁).data = l₂ ++ '-' :: (Nat.repr k₂).data := by
    simpa using hd
  obtain ⟨hb, he⟩ := hyphen_append_inj l₁ l₂ _ _ (repr_no_hyphen k₁) (repr_no_hyphen k₂) hd2
  refine ⟨by rw [hb], repr_injective ?_⟩
  obtain ⟨lr⟩ : ∃ l, (Nat.repr k₁) = l := ⟨_, rfl⟩
  exact String.ext he

lemma alookupN_cons_le (counter : List (String × Nat)) (b b' : String) :
    alookupN counter b' ≤ alookupN ((b, alookupN counter b + 1) :: counter) b' := by
  by_cases h : b' = b
  · subst h
    simp [alookupN]
  · simp [alookupN, h]

lemma mem_setSlugsAux {f : String → String} :
    ∀ (names : List String) (counter : List (String × Nat)) (s : String),
      s ∈ setSlugsAux f counter names →
      ∃ b k, s = b ++ "-" ++ Nat.repr k ∧ alookupN counter b < k := by
  intro names
  induction names with
  | nil => simp [setSlugsAux]
  | cons name rest ih =>
    intro counter s hs
    simp only [setSlugsAux, List.mem_cons] at hs
    rcases hs with rfl | hs
    · exact ⟨_, _, rfl, Nat.lt_succ_self _⟩
    · obtain ⟨b, k, rfl, hk⟩ := ih _ s hs
      exact ⟨b, k, rfl, lt_of_le_of_lt (alookupN_cons_le counter (slugBase f name) b) hk⟩

lemma setSlugsAux_pairwise {f : String → String} :
    ∀ (names : List String) (counter : List (String × Nat)),
      (setSlugsAux f counter names).Pairwise (· ≠ ·) := by
  intro names
  induction names with
  | nil => intro counter; simp [setSlugsAux]
  | cons name rest ih =>
    intro counter
    simp only [setSlugsAux]
    refine List.Pairwise.cons ?_ (ih _)
    intro s hs heq
    obtain ⟨b, k, rfl, hk⟩ := mem_setSlugsAux rest _ s hs
    obtain ⟨hb, hkk⟩ := slug_parts_inj heq
    rw [← hb] at hk
    simp [alookupN] at hk
    omega

lemma setSlugsAux_getElem {f : String → String} :
    ∀ (names : List String) (counter : List (String × Nat)) (i : Nat) (name : String),
      names[i]? = some name →
      ∃ k, 0 < k ∧
        (setSlugsAux f counter names)[i]? = some (slugBase f name ++ "-" ++ Nat.repr k) := by
  intro names
  induction names with
  | nil => simp
  | cons n rest ih =>
    intro counter i name h
    cases i with
    | zero =>
      simp only [List.getElem?_cons_zero, Option.some.injEq] at h
      subst h
      refine ⟨alookupN counter (slugBase f n) + 1, Nat.succ_pos _, ?_⟩
      simp [setSlugsAux]
    | succ i =>
      simp only [List.getElem?_cons_succ] at h
      simpa only [setSlugsAux, List.getElem?_cons_succ] using ih _ i name h

lemma setSlugsAux_length {f : String → String} :
    ∀ (names : List String) (counter : List (String × Nat)),
      (setSlugsAux f counter names).length = names.length := by
  intro names
  induction names with
  | nil => intro counter; rfl
  | cons n rest ih => intro counter; simp [setSlugsAux, ih]

lemma slug_ne_empty (b : String) (k : Nat) : b ++ "-" ++ Nat.repr k ≠ "" := by
  intro h
  have hlen := congrArg String.length h
  rw [String.length_append, String.length_append] at hlen
  have h1 : ("-" : String).length = 1 := rfl
  have h2 : ("" : String).length = 0 := rfl
  omega


end SlugLemmas

section SlugTheorems

/-- **C10** — For every list of statements, after `Statement.set_slugs` runs,
every statement has a non-empty slug (a blank display name yields the base
`'procedural'`) formed from the truncated slugified display name plus a
per-name counter suffix, and all slugs within the list are pairwise
distinct.  Stated for an arbitrary slugify function `f`. -/
theorem set_slugs_nonempty_distinct (f : String → String) (names : List String) :
    (∀ s ∈ setSlugs f names, s ≠ "") ∧
    (setSlugs f names).Pairwise (· ≠ ·) ∧
    (setSlugs f names).length = names.length ∧
    (∀ (i : Nat) (name : String), names[i]? = some name →
      ∃ k, 0 < k ∧ (setSlugs f names)[i]? = some (slugBase f name ++ "-" ++ Nat.repr k)) ∧
    (f "" = "" → slugBase f "" = "procedural") := by
  refine ⟨?_, setSlugsAux_pairwise names [], setSlugsAux_length names [], ?_, ?_⟩
  · intro s hs
    obtain ⟨b, k, rfl, _⟩ := mem_setSlugsAux names [] s hs
    exact slug_ne_empty b k
  · intro i name h
    exact setSlugsAux_getElem names [] i name h
  · intro hf
    simp [slugBase, hf]

/-- Witness for C10 at a concrete input (a repeated name and a blank name). -/
theorem set_slugs_nonempty_distinct_witness :
    setSlugs (fun s => s) ["ab", "ab", ""] = ["ab-1", "ab-2", "procedural-1"] ∧
    (setSlugs (fun s => s) ["ab", "ab", ""]).Pairwise (· ≠ ·) := by
  refine ⟨by decide, ?_⟩
  exact (set_slugs_nonempty_distinct (fun s => s) ["ab", "ab", ""]).2.1

end SlugTheorems

section StatementLifecycleTheorems

lemma pyStrip_eq_empty_all_ws {s : String} (h : pyStrip s = "") : ∀ c ∈ s.data, pyWs c := by
  have hdata : (((s.data.dropWhile pyWs).reverse.dropWhile pyWs).reverse) = [] := by
    have := congrArg String.data h
    simpa [pyStrip] using this
  rw [List.reverse_eq_nil_iff, List.dropWhile_eq_nil_iff] at hdata
  intro c hc
  rcases (List.takeWhile_append_dropWhile (p := pyWs) (l := s.data)) ▸ hc with hmem
  rcases List.mem_append.mp hmem with hmem | hmem
  · exact List.mem_takeWhile_imp hmem
  · exact hdata c (List.mem_reverse.mpr hmem)

lemma extractHoCid_of_all_ws : ∀ {l : List Char}, (∀ c ∈ l, pyWs c) → extractHoCid l = none := by
  intro l
  induction l with
  | nil => intro _; rfl
  | cons c rest ih =>
    intro h
    have hc : pyWs c = true := h c (List.mem_cons_self _ _)
    have hcd : c ≠ 'd' := by
      rintro rfl
      simp [pyWs] at hc
    have hpre : "data-HoCid=\"".data.isPrefixOf (c :: rest) = false := by
      simp only [List.isPrefixOf]
      have : ('d' == c) = false := by
        simp [Ne.symm hcd]
      simp [this]
    simp only [extractHoCid, hpre, Bool.false_eq_true, if_false]
    exact ih (fun d hd => h d (List.mem_cons_of_mem _ hd))

/-- **C9** — At end of document, if a statement is still open but its content
strips to empty, `get_final_statements` silently discards it: it is neither
appended to the output list nor does it raise the empty-statement
`AlpheusError` that closing it mid-document would raise. -/
theorem get_final_statements_discards_empty_open (s : ParseState) (st : PStatement)
    (h : s.currentStatement = some st) (h2 : pyStrip st.content = "") :
    getFinalStatements s = .ok s.statements := by
  simp [getFinalStatements, h, h2]

/-- Witness for C9: an open statement holding one space is dropped without
error. -/
theorem get_final_statements_discards_empty_open_witness :
    getFinalStatements { currentStatement := some { content := " " } } = .ok [] := by
  have h := get_final_statements_discards_empty_open
    { currentStatement := some { content := " " } } { content := " " } rfl (by decide)
  simpa using h

/-- **C1, counterexample** — Closing a statement whose cleaned content is
empty does not always raise `AlpheusError`: when the statement's meta has no
`id` key and its content yields no `data-HoCid` match, `clean_up_content`'s
`re.search(...).group(1)` fails first (an `AttributeError`, a different
exception class). -/
theorem close_statement_empty_no_id_not_alpheus :
    closeStatement { currentStatement := some { content := " " } } = .error .attrError ∧
    ∀ m, PyErr.attrError ≠ PyErr.alpheus m := by
  refine ⟨by rfl, ?_⟩
  intro m h
  exact PyErr.noConfusion h

/-- **C1, amended** — Closing the current statement when its cleaned-up
content is empty or whitespace-only raises an error: `AlpheusError` when the
statement's meta carries an `id` key, and the `AttributeError` from the
failed id extraction otherwise; consequently every statement appended to the
parser's output list has non-empty trimmed content (the output-list invariant
is preserved by every successful close). -/
lemma closeStatement_eq (s : ParseState) (st : PStatement)
    (h : s.currentStatement = some st) :
    closeStatement s =
      match cleanUpContent st with
      | none => Except.error PyErr.attrError
      | some cleaned =>
        if pyStrip cleaned.content = "" then
          Except.error (PyErr.alpheus "Trying to save a statement without content")
        else
          Except.ok { s with statements := s.statements ++ [cleaned],
                             currentStatement := none } := by
  unfold closeStatement
  rw [h]

theorem close_statement_empty_raises_and_appended_nonempty :
    (∀ (s : ParseState) (st : PStatement), s.currentStatement = some st →
      pyStrip (pyReplace (tameWhitespace st.content) "</blockquote><blockquote>" "") = "" →
      closeStatement s =
        .error (if st.idKey.isSome then
                  PyErr.alpheus "Trying to save a statement without content"
                else PyErr.attrError)) ∧
    (∀ (s s' : ParseState), closeStatement s = .ok s' →
      (∀ q ∈ s.statements, pyStrip q.content ≠ "") →
      ∀ q ∈ s'.statements, pyStrip q.content ≠ "") := by
  constructor
  · intro s st h hcl
    rw [closeStatement_eq s st h]
    cases hik : st.idKey with
    | some v =>
      simp only [cleanUpContent, hik]
      simp [hcl]
    | none =>
      have hws := pyStrip_eq_empty_all_ws hcl
      simp only [cleanUpContent, hik]
      rw [extractHoCid_of_all_ws hws]
      simp
  · intro s s' h hall q hq
    cases hcs : s.currentStatement with
    | none =>
      unfold closeStatement at h
      rw [hcs] at h
      cases h
      exact hall q hq
    | some st =>
      rw [closeStatement_eq s st hcs] at h
      split at h
      · cases h
      · next cleaned hclean =>
        split at h
        · cases h
        · next he =>
          cases h
          rcases List.mem_append.mp hq with hq | hq
          · exact hall q hq
          · rcases List.mem_singleton.mp hq with rfl
            exact he

/-- Witness for the amended C1: with an `id` key present, the error is the
`AlpheusError`; and a successful close preserves the non-empty invariant on a
concrete state. -/
theorem close_statement_empty_raises_witness :
    closeStatement { currentStatement := some { content := " ", idKey := some none } } =
      .error (.alpheus "Trying to save a statement without content") := by
  have h := close_statement_empty_raises_and_appended_nonempty.1
    { currentStatement := some { content := " ", idKey := some none } }
    { content := " ", idKey := some none } rfl (by decide)
  simpa using h

end StatementLifecycleTheorems

section WalkerTheorems

lemma addCode_ok (s : ParseState) (c : String) : ∃ s', addCode s c = .ok s' := by
  by_cases hc : c = ""
  · exact ⟨s, by simp [addCode, hc]⟩
  · cases hcs : s.currentStatement with
    | some cur => exact ⟨_, by unfold addCode; rw [if_neg hc, hcs]⟩
    | none => exact ⟨_, by unfold addCode; rw [if_neg hc, hcs]⟩

lemma addText_ok (s : ParseState) (t : String) : ∃ s', addText s t = .ok s' := by
  unfold addText
  by_cases ht : t = ""
  · exact ⟨s, by simp [ht]⟩
  · simpa [ht] using addCode_ok s (pyEscape t)

lemma addTagText_ok (el : XTree) (ev : TagEvent) (s : ParseState) :
    ∃ s', addTagText el ev s = .ok s' := by
  cases ev
  · exact addText_ok s el.text
  · exact addText_ok s el.tail

lemma lookup_eq_none_of_not_mem_keys {t : String} {l : List (String × String)}
    (h : t ∉ l.map (·.1)) : List.lookup t l = none := by
  induction l with
  | nil => rfl
  | cons p rest ih =>
    simp only [List.map_cons, List.mem_cons] at h
    push_neg at h
    have hne : (t == p.1) = false := by
      simp [h.1]
    simp only [List.lookup, hne]
    exact ih h.2

/-- **C2** — For every element reaching the default handler on its OPEN event
whose tag is not in the exclude set, not a passthrough tag, and not in the
ignore list, `AlpheusError` is raised and the document's parse aborts (the
walker returns the error); for every element whose tag is in the exclude set,
the handler instead returns the no-descend sentinel, so the element's entire
subtree is discarded without error and without any state change.  Stated for
an arbitrary behavior `kh` of the dedicated handlers, which the element never
reaches. -/
theorem default_handler_unknown_fatal_excluded_skipped
    (kh : Handler) (t txt tl : String) (cs : List XTree) (w : WalkState)
    (hnh : t ∉ handledTags) :
    (t ∈ excludeTags → explore kh (.node t txt tl cs) w = .ok w) ∧
    (t ∉ excludeTags → t ∉ passthroughTags.map (·.1) → t ∉ ignoreTagsBase →
      explore kh (.node t txt tl cs) w =
        .error (.alpheus ("I don't know how to handle tag " ++ t))) := by
  have hdisp : ∀ ev w', dispatch kh (XTree.node t txt tl cs) (XTree.node t txt tl cs) ev w' =
      defaultHandler (XTree.node t txt tl cs) ev w' := by
    intro ev w'
    unfold dispatch
    simp [XTree.tag, hnh]
  constructor
  · intro hex
    rw [explore, hdisp]
    unfold defaultHandler
    simp [XTree.tag, hex]
  · intro h1 h2 h3
    have hig : t ∉ ignoreTags := by
      unfold ignoreTags
      simp only [List.mem_append]
      push_neg
      exact ⟨h3, h2⟩
    rw [explore, hdisp]
    unfold defaultHandler
    simp only [XTree.tag]
    rw [if_neg h1]
    rw [lookup_eq_none_of_not_mem_keys h2]
    obtain ⟨ps₂, hps₂⟩ := addTagText_ok (XTree.node t txt tl cs) .tagOpen w.ps
    by_cases hip : w.inPara
    · simp [hip, hps₂, hig]
    · simp [hip, hig]

/-- Witness for C2: a top-level unknown tag aborts; a `CatchLine` subtree is
skipped silently. -/
theorem default_handler_unknown_fatal_excluded_skipped_witness :
    explore (fun _ _ w => .ok (false, w))
        (.node "Zorp" "x" "" []) ⟨{}, false⟩ =
      .error (.alpheus "I don't know how to handle tag Zorp") ∧
    explore (fun _ _ w => .ok (false, w))
        (.node "CatchLine" "x" "" [.node "Zorp" "x" "" []]) ⟨{}, false⟩ =
      .ok ⟨{}, false⟩ := by
  constructor
  · exact (default_handler_unknown_fatal_excluded_skipped
      (fun _ _ w => .ok (false, w)) "Zorp" "x" "" [] ⟨{}, false⟩ (by decide)).2
      (by decide) (by decide) (by decide)
  · exact (default_handler_unknown_fatal_excluded_skipped
      (fun _ _ w => .ok (false, w)) "CatchLine" "x" ""
      [.node "Zorp" "x" "" []] ⟨{}, false⟩ (by decide)).1 (by decide)

end WalkerTheorems

section ProceduralTheorems

lemma procCond_iff (who content : String) :
    ((rNotAMember who && hasChairWord who) || decide (who = "") ||
      !((pySplitChar '\n' content).any
          (fun p => !(pyInStr "class=\"procedural\"" p) && decide (p ≠ "")))) = true ↔
    (who = "" ∨ (rNotAMember who = true ∧ hasChairWord who = true) ∨
      ∀ p ∈ pySplitChar '\n' content, p ≠ "" → pyInStr "class=\"procedural\"" p = true) := by
  constructor
  · intro h
    rw [Bool.or_eq_true, Bool.or_eq_true] at h
    rcases h with (h | h) | h
    · rw [Bool.and_eq_true] at h
      exact Or.inr (Or.inl h)
    · exact Or.inl (of_decide_eq_true h)
    · refine Or.inr (Or.inr ?_)
      intro p hp hpne
      have hany : (pySplitChar '\n' content).any
          (fun p => !(pyInStr "class=\"procedural\"" p) && decide (p ≠ "")) = false := by
        simpa using h
      rw [List.any_eq_false] at hany
      have h2 := hany p hp
      by_cases hmark : pyInStr "class=\"procedural\"" p = true
      · exact hmark
      · exfalso
        apply h2
        rw [Bool.not_eq_true] at hmark
        simp [hmark, hpne]
  · intro h
    rw [Bool.or_eq_true, Bool.or_eq_true]
    rcases h with h | h | h
    · exact Or.inl (Or.inr (by simp [h]))
    · exact Or.inl (Or.inl (by simp [h.1, h.2]))
    · refine Or.inr ?_
      have hany : (pySplitChar '\n' content).any
          (fun p => !(pyInStr "class=\"procedural\"" p) && decide (p ≠ "")) = false := by
        rw [List.any_eq_false]
        intro p hp
        by_cases hpe : p = ""
        · simp [hpe]
        · simp [h p hp hpe]
      rw [hany]
      rfl

/-- **C7** — At the persistence-time re-check, a statement not already
flagged procedural and under 300 words is flagged `procedural = true` exactly
when it has no speaker attribution at all, or its attribution matches the
not-a-named-member generic-role pattern and contains a chair/speaker word
(`Speaker`, `Chair`, `président`), or every one of its (non-empty, post-save
normalized) paragraphs carries the `class="procedural"` marker; and a
statement over 300 words (e.g. 500 words by a named MP) is never newly
flagged.  Stated with the word counts already generated
(`wordcount_en is not None`). -/
theorem statement_save_procedural_iff (stripTags : String → String) (st : DbStatement)
    (hproc : st.procedural = false) (hwc : st.wordcountEn.isSome) :
    (st.wordcount ≤ 300 →
      ((statementSave stripTags st).procedural = true ↔
        (st.who = "" ∨
          (rNotAMember st.who = true ∧ hasChairWord st.who = true) ∨
          ∀ p ∈ pySplitChar '\n' (saveContentTransform st.contentEn),
            p ≠ "" → pyInStr "class=\"procedural\"" p = true))) ∧
    (300 < st.wordcount → (statementSave stripTags st).procedural = false) := by
  obtain ⟨wcEn, hwcEn⟩ := Option.isSome_iff_exists.mp hwc
  have hsave : statementSave stripTags st =
      (let st1 : DbStatement := { st with
        contentEn := saveContentTransform st.contentEn,
        contentFr := saveContentTransform st.contentFr }
      if saveProceduralCond st1 then { st1 with procedural := true } else st1) := by
    unfold statementSave
    rw [hwcEn]
  constructor
  · intro hle
    rw [hsave]
    simp only [saveProceduralCond, hproc, Bool.not_false, Bool.true_and]
    rw [decide_eq_true hle]
    simp only [Bool.true_and]
    by_cases hc : ((rNotAMember st.who && hasChairWord st.who) || decide (st.who = "") ||
      !((pySplitChar '\n' (saveContentTransform st.contentEn)).any
          (fun p => !(pyInStr "class=\"procedural\"" p) && decide (p ≠ "")))) = true
    · rw [if_pos hc]
      exact iff_of_true rfl ((procCond_iff st.who (saveContentTransform st.contentEn)).mp hc)
    · rw [if_neg hc]
      refine iff_of_false ?_ (fun hd => hc ((procCond_iff _ _).mpr hd))
      simp [hproc]
  · intro hgt
    rw [hsave]
    have hd : decide (st.wordcount ≤ 300) = false := by
      simp
      omega
    simp only [saveProceduralCond, hproc, Bool.not_false, Bool.true_and, hd,
      Bool.false_and, Bool.and_false]
    simp [hproc]

/-- Witness for C7: a short statement attributed `The Speaker` is flagged; a
long (500-word) statement by a named MP is not. -/
theorem statement_save_procedural_iff_witness :
    (statementSave (fun s => s)
      { contentEn := "", contentFr := "", who := "The Speaker", wordcount := 50,
        wordcountEn := some 50, procedural := false }).procedural = true ∧
    (statementSave (fun s => s)
      { contentEn := "", contentFr := "", who := "Hon. Jane Doe", wordcount := 500,
        wordcountEn := some 400, procedural := false }).procedural = false := by
  constructor
  · exact ((statement_save_procedural_iff (fun s => s) _ rfl (by decide)).1
      (by decide)).mpr (by decide)
  · exact (statement_save_procedural_iff (fun s => s) _ rfl (by decide)).2 (by decide)

end ProceduralTheorems

section HeadingTheorems

lemma cleanUpContent_h3 {st cleaned : PStatement} (h : cleanUpContent st = some cleaned) :
    cleaned.h3 = st.h3 := by
  unfold cleanUpContent at h
  cases hik : st.idKey with
  | some v =>
    rw [hik] at h
    simp only [Option.some.injEq] at h
    rw [← h]
  | none =>
    rw [hik] at h
    simp only [] at h
    split at h
    · simp only [Option.some.injEq] at h
      rw [← h]
    · cases h

lemma h3inv_closeStatement {base : List PStatement} {s s' : ParseState}
    (h : H3Inv base s) (hc : closeStatement s = .ok s') : H3Inv base s' := by
  cases hcs : s.currentStatement with
  | none =>
    unfold closeStatement at hc
    rw [hcs] at hc
    cases hc
    exact h
  | some st =>
    rw [closeStatement_eq s st hcs] at hc
    split at hc
    · cases hc
    · next cleaned hclean =>
      split at hc
      · cases hc
      · cases hc
        refine ⟨h.1, by simp, ?_⟩
        intro q hq
        rcases List.mem_append.mp hq with hq | hq
        · exact h.2.2 q hq
        · rcases List.mem_singleton.mp hq with rfl
          exact Or.inr ((cleanUpContent_h3 hclean).trans (h.2.1 st hcs))

lemma newPersonAssign_projections (s : ParseState) (hocId : Option String)
    (d sd : String) (affil : Option String) :
    (newPersonAssign s hocId d sd affil).currentH3 = s.currentH3 ∧
    (newPersonAssign s hocId d sd affil).currentStatement = s.currentStatement ∧
    (newPersonAssign s hocId d sd affil).statements = s.statements := by
  refine ⟨rfl, rfl, rfl⟩

lemma h3inv_newPersonAssign {base : List PStatement} {s : ParseState} (h : H3Inv base s)
    (hocId : Option String) (d sd : String) (affil : Option String) :
    H3Inv base (newPersonAssign s hocId d sd affil) := by
  obtain ⟨p1, p2, p3⟩ := newPersonAssign_projections s hocId d sd affil
  refine ⟨p1.trans h.1, ?_, ?_⟩
  · intro c hc
    exact h.2.1 c (p2 ▸ hc)
  · intro q hq
    exact h.2.2 q (p3 ▸ hq)

lemma newPerson_none_eq (s : ParseState) (hocId : Option String) (d : String)
    (affil : Option String) (h : s.currentStatement = none) :
    newPerson s hocId d affil =
      .ok (newPersonAssign s hocId (tameWhitespace d)
            (stripPersonName (tameWhitespace d)) affil) := by
  unfold newPerson
  rw [h]

lemma newPerson_some_eq (s : ParseState) (cur : PStatement) (hocId : Option String)
    (d : String) (affil : Option String) (h : s.currentStatement = some cur) :
    newPerson s hocId d affil =
      (match (match hocId with
              | some i =>
                if i ≠ "" ∧ cur.personId = some i then Except.ok true else Except.ok false
              | none =>
                match cur.personAttribution with
                | none => Except.error PyErr.assertError
                | some pa =>
                  Except.ok (lettersOnly (stripPersonName (tameWhitespace d)) =
                    lettersOnly (stripPersonName pa))) with
       | .error e => .error e
       | .ok b =>
         if b ∧ ¬ rIndeterminate (tameWhitespace d) then .ok s
         else
           match closeStatement s with
           | .error e => .error e
           | .ok s2 =>
             .ok (newPersonAssign s2 hocId (tameWhitespace d)
                   (stripPersonName (tameWhitespace d)) affil)) := by
  unfold newPerson
  rw [h]

lemma h3inv_newPerson {base : List PStatement} {s s' : ParseState} (h : H3Inv base s)
    (hocId : Option String) (d : String) (affil : Option String)
    (hn : newPerson s hocId d affil = .ok s') : H3Inv base s' := by
  cases hcs : s.currentStatement with
  | none =>
    rw [newPerson_none_eq s hocId d affil hcs] at hn
    cases hn
    exact h3inv_newPersonAssign h _ _ _ _
  | some cur =>
    rw [newPerson_some_eq s cur hocId d affil hcs] at hn
    split at hn
    · cases hn
    · split at hn
      · cases hn
        exact h
      · split at hn
        · cases hn
        · next s₂ hclose =>
          cases hn
          exact h3inv_newPersonAssign (h3inv_closeStatement h hclose) _ _ _ _

lemma h3inv_addCode {base : List PStatement} {s s' : ParseState} (h : H3Inv base s)
    (code : String) (hc : addCode s code = .ok s') : H3Inv base s' := by
  unfold addCode at hc
  by_cases hce : code = ""
  · rw [if_pos hce] at hc
    cases hc
    exact h
  · rw [if_neg hce] at hc
    cases hcs : s.currentStatement with
    | some cur =>
      rw [hcs] at hc
      cases hc
      refine ⟨h.1, ?_, h.2.2⟩
      intro c hcc
      simp only [Option.some.injEq] at hcc
      rw [← hcc]
      exact h.2.1 cur hcs
    | none =>
      rw [hcs] at hc
      cases hc
      refine ⟨h.1, ?_, h.2.2⟩
      intro c hcc
      simp only [Option.some.injEq] at hcc
      rw [← hcc]
      simpa [newStatementFrom] using h.1

lemma h3inv_applyOp {base : List PStatement} {s s' : ParseState} {op : HOp}
    (h : H3Inv base s) (hop : setsH3 op = false) (ha : applyOp s op = .ok s') :
    H3Inv base s' := by
  cases op with
  | qualifier t => simp [setsH3] at hop
  | sobTitle t =>
    simp only [applyOp, Except.ok.injEq] at ha
    rw [← ha]
    exact ⟨h.1, h.2.1, h.2.2⟩
  | sobClose =>
    simp only [applyOp, Except.ok.injEq] at ha
    rw [← ha]
    exact ⟨rfl, h.2.1, h.2.2⟩
  | oobTitle t =>
    simp only [applyOp, Except.ok.injEq] at ha
    rw [← ha]
    exact ⟨h.1, h.2.1, h.2.2⟩
  | oobClose =>
    simp only [applyOp, Except.ok.injEq] at ha
    rw [← ha]
    exact ⟨h.1, h.2.1, h.2.2⟩
  | wqrOpen q =>
    cases q with
    | some t => simp [setsH3] at hop
    | none =>
      simp only [applyOp, Except.ok.injEq] at ha
      rw [← ha]
      exact h
  | wqrClose =>
    simp only [applyOp] at ha
    split at ha
    · simp only [Except.ok.injEq] at ha
      rw [← ha]
      exact ⟨rfl, h.2.1, h.2.2⟩
    · simp only [Except.ok.injEq] at ha
      rw [← ha]
      exact h
  | interventionOpen ty idAttr =>
    simp only [applyOp, Except.ok.injEq] at ha
    rw [← ha]
    exact ⟨h.1, h.2.1, h.2.2⟩
  | interventionClose => exact h3inv_closeStatement h ha
  | floorLanguage l =>
    simp only [applyOp, Except.ok.injEq] at ha
    rw [← ha]
    exact ⟨h.1, h.2.1, h.2.2⟩
  | timestampOp t =>
    simp only [applyOp, Except.ok.injEq] at ha
    rw [← ha]
    refine ⟨h.1, ?_, h.2.2⟩
    intro c hc
    cases hcs : s.currentStatement with
    | none => simp [hcs] at hc
    | some cur =>
      have hcur := h.2.1 cur hcs
      simp only [hcs] at hc
      split at hc
      · simp only [Option.some.injEq] at hc
        rw [← hc]
        exact hcur
      · simp only [Option.some.injEq] at hc
        rw [← hc]
        exact hcur
  | personSignal hid d affil => exact h3inv_newPerson h hid d affil ha
  | addContent code => exact h3inv_addCode h code ha

lemma h3inv_runOps {base : List PStatement} :
    ∀ (ops : List HOp) (s s' : ParseState), H3Inv base s →
      (∀ op ∈ ops, setsH3 op = false) → runOps s ops = .ok s' → H3Inv base s' := by
  intro ops
  induction ops with
  | nil =>
    intro s s' h _ hr
    cases hr
    exact h
  | cons op rest ih =>
    intro s s' h hops hr
    unfold runOps at hr
    cases ha : applyOp s op with
    | error e => rw [ha] at hr; cases hr
    | ok s₁ =>
      rw [ha] at hr
      exact ih s₁ s' (h3inv_applyOp h (hops op (List.mem_cons_self _ _)) ha)
        (fun o ho => hops o (List.mem_cons_of_mem _ ho)) hr

/-- **C8** — An `h3` heading value set by a `SubjectOfBusinessQualifier`
element is attached to statements created while its enclosing
`SubjectOfBusiness` element is open, and is removed from the walker's current
attributes when that `SubjectOfBusiness` element closes, so no statement
created after that close carries the stale `h3` value: after the close, any
run of handler operations none of which sets `h3` keeps the attribute clear,
and every statement it finalizes carries no `h3`. -/
theorem subject_of_business_h3_scoping :
    (∀ (s : ParseState) (v : String),
      applyOp s (.qualifier v) = .ok { s with currentH3 := some v }) ∧
    (∀ (s : ParseState) (code : String), code ≠ "" → s.currentStatement = none →
      ∃ s', addCode s code = .ok s' ∧
        s'.currentStatement.map PStatement.h3 = some s.currentH3) ∧
    (∀ s : ParseState, applyOp s .sobClose = .ok { s with currentH3 := none }) ∧
    (∀ (ops : List HOp) (s s' : ParseState), s.currentH3 = none →
      s.currentStatement = none → (∀ op ∈ ops, setsH3 op = false) →
      runOps s ops = .ok s' →
      s'.currentH3 = none ∧ ∀ st ∈ s'.statements, st ∈ s.statements ∨ st.h3 = none) := by
  refine ⟨fun s v => rfl, ?_, fun s => rfl, ?_⟩
  · intro s code hne hcs
    refine ⟨_, by unfold addCode; rw [if_neg hne, hcs], ?_⟩
    simp [newStatementFrom]
  · intro ops s s' h1 h2 hops hr
    have hinv0 : H3Inv s.statements s := by
      unfold H3Inv
      refine ⟨h1, ?_, ?_⟩
      · intro c hc
        rw [h2] at hc
        cases hc
      · intro q hq
        exact Or.inl hq
    have hinv := h3inv_runOps ops s s' hinv0 hops hr
    exact ⟨hinv.1, hinv.2.2⟩

/-- Witness for C8 at concrete inputs: the qualifier sets `h3`, the close
clears it, and a subsequent non-`h3` operation leaves it clear. -/
theorem subject_of_business_h3_scoping_witness :
    applyOp {} (.qualifier "TOPIC") = .ok { currentH3 := some "TOPIC" } ∧
    applyOp { currentH3 := some "TOPIC" } .sobClose = .ok {} ∧
    ({ currentH2 := some "T" } : ParseState).currentH3 = none := by
  refine ⟨subject_of_business_h3_scoping.1 {} "TOPIC",
    subject_of_business_h3_scoping.2.2.1 { currentH3 := some "TOPIC" }, ?_⟩
  have h := subject_of_business_h3_scoping.2.2.2 [.sobTitle "T"] {}
    { currentH2 := some "T" } rfl rfl (by decide) (by rfl)
  exact h.1

end HeadingTheorems

section NewPersonTheorems

lemma closeStatement_ok_some {s s' : ParseState} {cur : PStatement}
    (hcs : s.currentStatement = some cur) (h : closeStatement s = .ok s') :
    s'.currentStatement = none ∧ s'.statements.length = s.statements.length + 1 := by
  rw [closeStatement_eq s cur hcs] at h
  split at h
  · cases h
  · split at h
    · cases h
    · cases h
      exact ⟨rfl, by simp⟩

lemma newPersonAssign_attribution (s : ParseState) (hocId : Option String)
    (d sd : String) (affil : Option String) :
    (newPersonAssign s hocId d sd affil).oneTime.personAttribution = some d := by
  simp only [newPersonAssign]
  repeat' split
  all_goals rfl

lemma newPersonAssign_statements (s : ParseState) (hocId : Option String)
    (d sd : String) (affil : Option String) :
    (newPersonAssign s hocId d sd affil).statements = s.statements ∧
    (newPersonAssign s hocId d sd affil).currentStatement = s.currentStatement := by
  exact ⟨rfl, rfl⟩

/-- **C3** — When a new-speaker signal (`_new_person`) arrives while a
statement is open: if the new attribution carries the same numeric person-id
as the open statement's person-id, or no id is present and the letters-only
normalization of the new description after honorific/parenthetical stripping
equals that of the open statement's attribution, then no statement boundary
is created and the state is unchanged (the text coalesces into the open
statement) — unless the new description matches the indeterminate
generic-role pattern (`An`/`A`/`Une` + space, e.g. `An hon. member`), in
which case the open statement is always closed and a new one begun; so two
consecutive no-id generic-role attributions produce two separate statements.
(The `hpa` hypothesis mirrors the source's `assert` that an open statement
has an attribution when the no-id comparison is reached.) -/
theorem new_person_same_speaker_coalesces_unless_indeterminate
    (s : ParseState) (cur : PStatement) (hocId : Option String) (desc : String)
    (affil : Option String) (hcs : s.currentStatement = some cur)
    (hpa : hocId = none → cur.personAttribution.isSome) :
    (((match hocId with
       | some i => i ≠ "" ∧ cur.personId = some i
       | none => lettersOnly (stripPersonName (tameWhitespace desc)) =
           lettersOnly (stripPersonName (cur.personAttribution.getD ""))) ∧
      rIndeterminate (tameWhitespace desc) = false) →
      newPerson s hocId desc affil = .ok s) ∧
    (¬ ((match hocId with
         | some i => i ≠ "" ∧ cur.personId = some i
         | none => lettersOnly (stripPersonName (tameWhitespace desc)) =
             lettersOnly (stripPersonName (cur.personAttribution.getD ""))) ∧
        rIndeterminate (tameWhitespace desc) = false) →
      newPerson s hocId desc affil =
        (closeStatement s).map
          (fun s2 => newPersonAssign s2 hocId (tameWhitespace desc)
            (stripPersonName (tameWhitespace desc)) affil)) ∧
    (∀ s'' : ParseState, newPerson s hocId desc affil = .ok s'' →
      ¬ ((match hocId with
          | some i => i ≠ "" ∧ cur.personId = some i
          | none => lettersOnly (stripPersonName (tameWhitespace desc)) =
              lettersOnly (stripPersonName (cur.personAttribution.getD ""))) ∧
         rIndeterminate (tameWhitespace desc) = false) →
      s''.currentStatement = none ∧
      s''.oneTime.personAttribution = some (tameWhitespace desc) ∧
      s''.statements.length = s.statements.length + 1) := by
  have hmain :
      (((match hocId with
         | some i => i ≠ "" ∧ cur.personId = some i
         | none => lettersOnly (stripPersonName (tameWhitespace desc)) =
             lettersOnly (stripPersonName (cur.personAttribution.getD ""))) ∧
        rIndeterminate (tameWhitespace desc) = false) →
        newPerson s hocId desc affil = .ok s) ∧
      (¬ ((match hocId with
           | some i => i ≠ "" ∧ cur.personId = some i
           | none => lettersOnly (stripPersonName (tameWhitespace desc)) =
               lettersOnly (stripPersonName (cur.personAttribution.getD ""))) ∧
          rIndeterminate (tameWhitespace desc) = false) →
        newPerson s hocId desc affil =
          (closeStatement s).map
            (fun s2 => newPersonAssign s2 hocId (tameWhitespace desc)
              (stripPersonName (tameWhitespace desc)) affil)) := by
    cases hocId with
    | some i =>
      constructor
      · rintro ⟨hsame0, hind⟩
        have hsame : i ≠ "" ∧ cur.personId = some i := hsame0
        simp only [newPerson, hcs]
        rw [if_pos hsame]
        simp [hind]
      · intro hns0
        have hns : ¬ ((i ≠ "" ∧ cur.personId = some i) ∧
            rIndeterminate (tameWhitespace desc) = false) := hns0
        simp only [newPerson, hcs]
        by_cases hsame : i ≠ "" ∧ cur.personId = some i
        · have hind : rIndeterminate (tameWhitespace desc) = true := by
            by_contra hind
            exact hns ⟨hsame, by simpa using hind⟩
          rw [if_pos hsame]
          cases hc : closeStatement s <;> simp [hc, hind, Except.map]
        · rw [if_neg hsame]
          cases hc : closeStatement s <;> simp [hc, Except.map]
    | none =>
      obtain ⟨pa, hpav⟩ := Option.isSome_iff_exists.mp (hpa rfl)
      constructor
      · rintro ⟨hsame0, hind⟩
        have hsame : lettersOnly (stripPersonName (tameWhitespace desc)) =
            lettersOnly (stripPersonName pa) := by
          have h1 : lettersOnly (stripPersonName (tameWhitespace desc)) =
              lettersOnly (stripPersonName (cur.personAttribution.getD "")) := hsame0
          rw [hpav] at h1
          simpa using h1
        simp only [newPerson, hcs, hpav]
        simp [hsame, hind]
      · intro hns0
        have hns : ¬ ((lettersOnly (stripPersonName (tameWhitespace desc)) =
            lettersOnly (stripPersonName (cur.personAttribution.getD ""))) ∧
            rIndeterminate (tameWhitespace desc) = false) := hns0
        simp only [newPerson, hcs, hpav]
        by_cases hsame : lettersOnly (stripPersonName (tameWhitespace desc)) =
            lettersOnly (stripPersonName pa)
        · have hind : rIndeterminate (tameWhitespace desc) = true := by
            by_contra hind
            refine hns ⟨?_, by simpa using hind⟩
            rw [hpav]
            simpa using hsame
          cases hc : closeStatement s <;> simp [hc, hsame, hind, Except.map]
        · cases hc : closeStatement s <;> simp [hc, hsame, Except.map]
  refine ⟨hmain.1, hmain.2, ?_⟩
  intro s'' hok hns
  rw [hmain.2 hns] at hok
  cases hc : closeStatement s with
  | error e => rw [hc] at hok; cases hok
  | ok s2 =>
    rw [hc] at hok
    simp only [Except.map, Except.ok.injEq] at hok
    rw [← hok]
    obtain ⟨hc1, hc2⟩ := closeStatement_ok_some hcs hc
    obtain ⟨hs1, hs2⟩ := newPersonAssign_statements s2 hocId
      (tameWhitespace desc) (stripPersonName (tameWhitespace desc)) affil
    exact ⟨hs2.trans hc1, newPersonAssign_attribution _ _ _ _ _, by rw [hs1]; exact hc2⟩

/-- Witness for C3: a same-id signal coalesces (the state is unchanged), and
a no-id `An hon. member` signal over an open `An hon. member` statement
closes it and begins a new one — two consecutive generic-role attributions
give two statements. -/
theorem new_person_same_speaker_coalesces_unless_indeterminate_witness :
    newPerson
        { currentStatement :=
            some { personAttribution := some "Ms. Jane Doe", personId := some "42", content := "x" } }
        (some "42") "Ms. Jane Doe" none =
      .ok { currentStatement :=
              some { personAttribution := some "Ms. Jane Doe", personId := some "42", content := "x" } } ∧
    (newPerson
        { currentStatement :=
            some { personAttribution := some "An hon. member", content := "<p data-HoCid=\"1\">Oh!</p>" } }
        none "An hon. member" none).toOption.map
      (fun s2 => (s2.statements.length, s2.currentStatement.isSome, s2.oneTime.personAttribution)) =
      some (1, false, some "An hon. member") := by
  constructor
  · exact (new_person_same_speaker_coalesces_unless_indeterminate _ _
      (some "42") "Ms. Jane Doe" none rfl (fun h => nomatch h)).1 ⟨⟨by decide, rfl⟩, by decide⟩
  · have hb := (new_person_same_speaker_coalesces_unless_indeterminate
      { currentStatement :=
          some { personAttribution := some "An hon. member",
                 content := "<p data-HoCid=\"1\">Oh!</p>" } }
      { personAttribution := some "An hon. member",
        content := "<p data-HoCid=\"1\">Oh!</p>" }
      none "An hon. member" none rfl (fun _ => rfl)).2.1 (by decide)
    rw [hb]
    rfl

end NewPersonTheorems

section AlignTheorems

lemma maxByScore_isSome {l : List (RealignSt × ℚ)} (h : l ≠ []) :
    ∃ x, maxByScore l = some x := by
  cases l with
  | nil => exact absurd rfl h
  | cons x rest => exact ⟨_, rfl⟩

lemma alignOlds_ok (candidates : List RealignSt) (hc : candidates ≠ []) :
    ∀ (olds : List RealignSt) (st : List (Nat × String) × List RealignSt),
      ∃ st', alignOlds candidates st olds = some st' ∧
        st'.1.length = st.1.length + olds.length := by
  intro olds
  induction olds with
  | nil => intro st; exact ⟨st, rfl, by simp⟩
  | cons old rest ih =>
    intro st
    obtain ⟨mappings, chosen⟩ := st
    have hne : candidates.map (fun cand => (cand, calculateSimilarity chosen old cand)) ≠ [] := by
      simpa using hc
    obtain ⟨x, hx⟩ := maxByScore_isSome hne
    obtain ⟨st', h1, h2⟩ := ih (mappings ++ [(old.sequence, x.1.slug)], chosenAdd chosen x.1)
    refine ⟨st', ?_, ?_⟩
    · simp only [alignOlds]
      rw [hx]
      exact h1
    · simp only [List.length_append, List.length_singleton] at h2
      simp only [List.length_cons]
      omega

lemma addToGroup_sum (d : List (String × List RealignSt)) (key : String) (s : RealignSt) :
    ((addToGroup d key s).map (fun g => g.2.length)).sum =
      (d.map (fun g => g.2.length)).sum + 1 := by
  induction d with
  | nil => simp [addToGroup]
  | cons p rest ih =>
    obtain ⟨k, g⟩ := p
    by_cases hk : k = key
    · simp [addToGroup, hk]
      omega
    · simp only [addToGroup, if_neg hk, List.map_cons, List.sum_cons, ih]
      omega

lemma buildSpeakerDict_sum (states : List RealignSt) :
    ((buildSpeakerDict states).map (fun g => g.2.length)).sum = states.length := by
  suffices h : ∀ d, (((states.foldl (fun d s => addToGroup d s.displayName s) d).map
      (fun g => g.2.length)).sum) = (d.map (fun g => g.2.length)).sum + states.length by
    simpa using h []
  induction states with
  | nil => intro d; simp
  | cons s rest ih =>
    intro d
    simp only [List.foldl_cons, List.length_cons]
    rw [ih (addToGroup d s.displayName s), addToGroup_sum]
    omega

lemma alignGroups_ok (newStatements : List RealignSt) (hn : newStatements ≠ [])
    (nsp : List (String × List RealignSt)) :
    ∀ (groups : List (String × List RealignSt)) (st : List (Nat × String) × List RealignSt),
      ∃ st', alignGroups newStatements nsp groups st = some st' ∧
        st'.1.length = st.1.length + ((groups.map (fun g => g.2.length)).sum) := by
  intro groups
  induction groups with
  | nil => intro st; exact ⟨st, rfl, by simp⟩
  | cons p rest ih =>
    intro st
    obtain ⟨speaker, olds⟩ := p
    obtain ⟨mappings, chosen⟩ := st
    by_cases hcond : speaker ≠ "" ∧ olds.length = (groupLookup nsp speaker).length
    · obtain ⟨st', h1, h2⟩ := ih
        (mappings ++ (olds.zip (groupLookup nsp speaker)).map
          (fun q => (q.1.sequence, q.2.slug)), chosen)
      refine ⟨st', ?_, ?_⟩
      · simp only [alignGroups]
        rw [if_pos hcond]
        exact h1
      · rw [h2]
        simp only [List.length_append, List.length_map, List.length_zip,
          List.map_cons, List.sum_cons]
        rw [← hcond.2, Nat.min_self]
        omega
    · have hcand : (if groupLookup nsp speaker ≠ [] then groupLookup nsp speaker
          else newStatements) ≠ [] := by
        by_cases hg : groupLookup nsp speaker = []
        · simpa [hg] using hn
        · simp [hg]
      obtain ⟨st₁, hst₁, hlen₁⟩ := alignOlds_ok _ hcand olds (mappings, chosen)
      obtain ⟨st', h1, h2⟩ := ih st₁
      refine ⟨st', ?_, ?_⟩
      · simp only [alignGroups]
        rw [if_neg hcond]
        rw [hst₁]
        exact h1
      · rw [h2, hlen₁]
        simp only [List.map_cons, List.sum_cons]
        omega

/-- **C5** — For every realignment call where the new-statement list is
non-empty, `_align_sequences` terminates, never raises, and emits exactly one
`(old sequence, new slug)` mapping per old statement; in particular the same
new statement may be chosen as best match for more than one old statement
without error. -/
theorem align_sequences_total_one_mapping_per_old
    (news olds : List RealignSt) (hn : news ≠ []) :
    ∃ m, alignSequences news olds = some m ∧ m.length = olds.length := by
  obtain ⟨st', h1, h2⟩ := alignGroups_ok news hn (buildSpeakerDict news)
    (buildSpeakerDict olds) ([], [])
  refine ⟨st'.1, ?_, ?_⟩
  · unfold alignSequences
    rw [h1]
    rfl
  · rw [h2]
    simp [buildSpeakerDict_sum]

/-- Witness for C5: two old `An hon. member` statements aligned against three
new ones — the call succeeds and yields exactly two mappings. -/
theorem align_sequences_total_one_mapping_per_old_witness :
    ∃ m, alignSequences
      [⟨"An hon. member", 10, "Oh!", 0, "an-hon-member-1"⟩,
       ⟨"An hon. member", 11, "No!", 1, "an-hon-member-2"⟩,
       ⟨"An hon. member", 12, "Hear, hear!", 2, "an-hon-member-3"⟩]
      [⟨"An hon. member", 10, "Oh!", 4, "old-a"⟩,
       ⟨"An hon. member", 12, "Hear!", 7, "old-b"⟩] = some m ∧
      m.length = 2 := by
  exact align_sequences_total_one_mapping_per_old _ _ (by decide)

end AlignTheorems

section MergeTheorems

lemma mergeFold_ok (plinks : String → String) (fp : List (Nat × String))
    (fd : List (String × FrSt)) :
    ∀ (sts : List EnSt) (flag0 : Bool) (out0 : List (EnSt × Option String)),
      (∀ st ∈ sts, (mergeStatement plinks fp fd st).isSome) →
      ∃ flag out,
        sts.foldlM (mergeFoldStep plinks fp fd) (flag0, out0) = some (flag, out) ∧
        out.map (·.1) = out0.map (·.1) ++ sts ∧
        ((∀ st ∈ sts, (mergeStatement plinks fp fd st).map (·.2) = some true) →
          flag = flag0) := by
  intro sts
  induction sts with
  | nil =>
    intro flag0 out0 _
    exact ⟨flag0, out0, rfl, by simp, fun _ => rfl⟩
  | cons st rest ih =>
    intro flag0 out0 hall
    obtain ⟨res, hres⟩ := Option.isSome_iff_exists.mp (hall st (List.mem_cons_self _ _))
    obtain ⟨cfr, ok⟩ := res
    obtain ⟨flag, out, h1, h2, h3⟩ := ih (flag0 && ok) (out0 ++ [(st, cfr)])
      (fun q hq => hall q (List.mem_cons_of_mem _ hq))
    refine ⟨flag, out, ?_, ?_, ?_⟩
    · rw [List.foldlM_cons]
      simp only [mergeFoldStep, hres, Option.bind_some]
      exact h1
    · rw [h2]
      simp
    · intro htrue
      have hok : ok = true := by
        have := htrue st (List.mem_cons_self _ _)
        rw [hres] at this
        simpa using this
      rw [h3 (fun q hq => htrue q (List.mem_cons_of_mem _ hq)), hok]
      simp

/-- **C6** — In the bilingual merge, for every primary-language statement: if
a secondary-language statement with the same source id exists and the two
ordered paragraph-id sequences are identical, the secondary content is paired
directly; otherwise — no same-id secondary statement, or one whose
paragraph-id sequence differs — if every primary paragraph has a non-zero id,
each paragraph is substituted by the same-id secondary paragraph (keeping the
original on a missed lookup); if neither strategy applies, or the
document-wide missing-id count exceeds the number of available secondary
paragraphs, the document's `multilingual` flag is set (or stays) `false` and
processing continues without raising, producing single-language output; and
when every statement pairs, the flag stays `true`. -/
theorem bilingual_merge_strategies :
    (∀ (plinks : String → String) (enSts : List EnSt) (frSts : List FrSt)
       (fp : List (Nat × String)) (fd : List (String × FrSt)) (missing : Nat),
      frDicts frSts = some (fp, fd, missing) → missing > frParasLen fp →
      importMerge plinks enSts frSts = some (false, enSts.map (fun st => (st, none)))) ∧
    (∀ (plinks : String → String) (fp : List (Nat × String)) (fd : List (String × FrSt))
       (st : EnSt) (fr : FrSt) (lEn lFr : List (String × Nat)),
      frStLookup fd st.sourceId = some fr →
      getParagraphsAndIds st.contentEn = some lEn →
      getParagraphsAndIds fr.content = some lFr →
      lEn.map (·.2) = lFr.map (·.2) →
      mergeStatement plinks fp fd st = some (some (plinks fr.content), true)) ∧
    (∀ (plinks : String → String) (fp : List (Nat × String)) (fd : List (String × FrSt))
       (st : EnSt) (lEn : List (String × Nat)) (subbed : List Char),
      (frStLookup fd st.sourceId = none ∨
        ∃ fr lFr, frStLookup fd st.sourceId = some fr ∧
          getParagraphsAndIds fr.content = some lFr ∧
          lEn.map (·.2) ≠ lFr.map (·.2)) →
      getParagraphsAndIds st.contentEn = some lEn →
      (∀ x ∈ lEn.map (·.2), x ≠ 0) →
      paraSubF (substituteFrench fp) st.contentEn.length st.contentEn.data = some subbed →
      mergeStatement plinks fp fd st = some (some (plinks ⟨subbed⟩), true)) ∧
    (∀ (plinks : String → String) (fp : List (Nat × String)) (fd : List (String × FrSt))
       (st : EnSt) (lEn : List (String × Nat)),
      (frStLookup fd st.sourceId = none ∨
        ∃ fr lFr, frStLookup fd st.sourceId = some fr ∧
          getParagraphsAndIds fr.content = some lFr ∧
          lEn.map (·.2) ≠ lFr.map (·.2)) →
      getParagraphsAndIds st.contentEn = some lEn →
      (¬ ∀ x ∈ lEn.map (·.2), x ≠ 0) →
      mergeStatement plinks fp fd st = some (none, false)) ∧
    (∀ (plinks : String → String) (enSts : List EnSt) (frSts : List FrSt)
       (fp : List (Nat × String)) (fd : List (String × FrSt)) (missing : Nat),
      frDicts frSts = some (fp, fd, missing) → ¬ missing > frParasLen fp →
      (∀ st ∈ enSts, ∃ c, mergeStatement plinks fp fd st = some (some c, true)) →
      ∃ out, importMerge plinks enSts frSts = some (true, out) ∧
        out.map (·.1) = enSts) := by
  refine ⟨?_, ?_, ?_, ?_, ?_⟩
  · intro plinks enSts frSts fp fd missing hfd hguard
    simp [importMerge, hfd, hguard]
  · intro plinks fp fd st fr lEn lFr hlk hen hfr hpids
    simp [mergeStatement, hlk, hen, hfr, hpids]
  · intro plinks fp fd st lEn subbed hby hen hall hsub
    rcases hby with hlk | ⟨fr, lFr, hlk, hfr, hne⟩
    · simp [mergeStatement, hlk, hen, hall, hsub]
      intro x hx
      exact (hall 0 (List.mem_map.mpr ⟨(x, 0), hx, rfl⟩)) rfl
    · simp [mergeStatement, hlk, hen, hfr, hne, hall, hsub]
      intro x hx
      exact (hall 0 (List.mem_map.mpr ⟨(x, 0), hx, rfl⟩)) rfl
  · intro plinks fp fd st lEn hby hen hall
    have hfalse : ((lEn.map (fun x => x.2)).all fun x => decide (x ≠ 0)) = false := by
      rw [List.all_eq_false]
      push_neg at hall
      obtain ⟨x, hx, hx0⟩ := hall
      exact ⟨x, hx, by simp [hx0]⟩
    rcases hby with hlk | ⟨fr, lFr, hlk, hfr, hne⟩
    · simp [mergeStatement, hlk, hen, hfalse]
      intro hforall
      exfalso
      apply hall
      intro x hx
      obtain ⟨q, hq, rfl⟩ := List.mem_map.mp hx
      exact hforall q.2 q.1 (by simpa using hq)
    · simp [mergeStatement, hlk, hen, hfr, hne, hfalse]
      intro hforall
      exfalso
      apply hall
      intro x hx
      obtain ⟨q, hq, rfl⟩ := List.mem_map.mp hx
      exact hforall q.2 q.1 (by simpa using hq)
  · intro plinks enSts frSts fp fd missing hfd hguard hall
    have hsome : ∀ st ∈ enSts, (mergeStatement plinks fp fd st).isSome := by
      intro st hst
      obtain ⟨c, hc⟩ := hall st hst
      simp [hc]
    obtain ⟨flag, out, h1, h2, h3⟩ := mergeFold_ok plinks fp fd enSts true [] hsome
    have hflag : flag = true := by
      refine h3 ?_
      intro st hst
      obtain ⟨c, hc⟩ := hall st hst
      simp [hc]
    refine ⟨out, ?_, by simpa using h2⟩
    simp [importMerge, hfd, hguard, h1, hflag]

/-- Witness for C6: one English and one French statement with an identical
single paragraph id pair by statement; and when the same-source-id French
statement has a different paragraph-id sequence, the English statement falls
back to by-paragraph substitution from the French paragraph dict. -/
theorem bilingual_merge_strategies_witness :
    (mergeStatement (fun s => s) [(1, "<p data-HoCid=\"1\">Bonjour</p>")]
      [("p1", ⟨some "p1", "<p data-HoCid=\"1\">Bonjour</p>"⟩)]
      ⟨"p1", "<p data-HoCid=\"1\">Hello</p>"⟩ =
      some (some "<p data-HoCid=\"1\">Bonjour</p>", true)) ∧
    (mergeStatement (fun s => s) [(1, "<p data-HoCid=\"1\">Bonjour</p>")]
      [("p1", ⟨some "p1", "<p data-HoCid=\"2\">Salut</p>"⟩)]
      ⟨"p1", "<p data-HoCid=\"1\">Hello</p>"⟩ =
      some (some "<p data-HoCid=\"1\">Bonjour</p>", true)) := by
  constructor
  · exact bilingual_merge_strategies.2.1 (fun s => s) _ _
      ⟨"p1", "<p data-HoCid=\"1\">Hello</p>"⟩ ⟨some "p1", "<p data-HoCid=\"1\">Bonjour</p>"⟩
      [("<p data-HoCid=\"1\">Hello</p>", 1)] [("<p data-HoCid=\"1\">Bonjour</p>", 1)]
      (by decide) (by decide) (by decide) (by decide)
  · exact bilingual_merge_strategies.2.2.1 (fun s => s) _ _
      ⟨"p1", "<p data-HoCid=\"1\">Hello</p>"⟩
      [("<p data-HoCid=\"1\">Hello</p>", 1)] "<p data-HoCid=\"1\">Bonjour</p>".data
      (Or.inr ⟨⟨some "p1", "<p data-HoCid=\"2\">Salut</p>"⟩,
        [("<p data-HoCid=\"2\">Salut</p>", 2)], by decide, by decide, by decide⟩)
      (by decide) (by decide) (by decide)

end MergeTheorems

section SimilarityTheorems

/-- **C4** — The realignment similarity score is *not* always in `[0, 1]`:
with distinct timestamps, a new statement already in `chosen` (the −0.01
penalty) and textually unrelated one-token contents, `calculate_similarity`
returns `(0 − 0.01 + 0) / 1.8 = −1/180 < 0`, contradicting its own docstring
("a score between 0 and 1") and the spec's "All scores are normalized into
[0,1]". -/
theorem calculate_similarity_below_zero :
    calculateSimilarity
      [⟨"An hon. member", 660, "b", 0, "an-hon-member-2"⟩]
      ⟨"An hon. member", 600, "a", 5, "an-hon-member-1"⟩
      ⟨"An hon. member", 660, "b", 0, "an-hon-member-2"⟩ = -(1 / 180) ∧
    (-(1 / 180) : ℚ) < 0 := by
  constructor
  · have h1 : pyInStr "b" "a" = false := rfl
    have h2 : getComparisonSequence "a" = ["a"] := rfl
    have h3 : getComparisonSequence "b" = ["b"] := rfl
    have h4 : matchedTotal 2 ["a"] ["b"] = 0 := rfl
    simp only [calculateSimilarity, smRatio, h1, h2, h3]
    norm_num [h4]
  · norm_num

end SimilarityTheorems

end OpenParl
